import Mathlib

/-!
# Verification of the alexa-app dispatch and response engine

Shallow embedding of the TypeScript sources `src/Session.ts`, `src/Request.ts`,
`src/Response.ts` (with its `to-ssml` helper) and `src/Application.ts` of the
`alexa-app` repository, together with proofs about the request-dispatch
completion protocol, the session store, and response assembly.

JavaScript values that matter to the verified claims are modeled explicitly:
absent object properties become `Option`, thrown values become an error type
threaded through `Except` or recorded in the engine state, and the per-dispatch
mutable closure variables of `Application.request` (`callbackHandlerCalled`,
`postExecuted`, `response.resolved`) become fields of an explicit engine state.
-/

namespace AlexaApp

/-- Pure JSON trees: the values stored in session attributes and produced by
`JSON.parse(JSON.stringify(x))`.  Numbers are modeled as integers (no claim
depends on float behavior). -/
inductive PJson where
  | null : PJson
  | bool (b : Bool) : PJson
  | num (n : Int) : PJson
  | str (s : String) : PJson
  | obj (fields : List (String × PJson)) : PJson
deriving Repr

/-- A JavaScript object used as a string-keyed map (the session attribute
mapping).  JS objects have unique keys; association lists with the operations
below model property read, assignment and `delete`. -/
abbrev Attrs := List (String × PJson)

/-- Property read `o[k]`: `none` models the JS value `undefined`. -/
def aget (a : Attrs) (k : String) : Option PJson :=
  (a.find? (fun p => p.1 == k)).map (fun p => p.2)

/-- Property assignment `o[k] = v`. -/
def aset (a : Attrs) (k : String) (v : PJson) : Attrs :=
  if a.any (fun p => p.1 == k) then
    a.map (fun p => if p.1 == k then (k, v) else p)
  else
    a ++ [(k, v)]

/-- Property removal `delete o[k]`. -/
def adel (a : Attrs) (k : String) : Attrs :=
  a.filter (fun p => p.1 != k)

/-! ### JavaScript string operations

The JS string methods the sources use are modeled by structurally recursive
character-list functions, so that concrete dispatches evaluate inside the
kernel. -/

/-- `s.indexOf(pre) === 0` / `startsWith`. -/
def jsStartsWith (s pre : String) : Bool :=
  pre.toList.isPrefixOf s.toList

/-- `s.slice(n)` for a non-negative `n`. -/
def jsSlice (s : String) (n : Nat) : String :=
  String.mk (s.toList.drop n)

/-- `s.trim()`. -/
def jsTrim (s : String) : String :=
  String.mk (((s.toList.dropWhile Char.isWhitespace).reverse.dropWhile
    Char.isWhitespace).reverse)

/-- Global substring replacement on character lists (`replace(/pat/g, repl)`
for a literal pattern); `fuel` starts at the input length. -/
def replaceAllChars (pat repl : List Char) : Nat → List Char → List Char
  | _, [] => []
  | 0, cs => cs
  | f + 1, c :: cs =>
      if pat ≠ [] && pat.isPrefixOf (c :: cs) then
        repl ++ replaceAllChars pat repl f ((c :: cs).drop pat.length)
      else c :: replaceAllChars pat repl f cs

/-- Global replacement of a literal pattern in a string. -/
def jsReplaceAll (s pat repl : String) : String :=
  String.mk (replaceAllChars pat.toList repl.toList s.toList.length s.toList)

/-- Values thrown by the JavaScript code: `TypeError`s raised by property
access on `undefined`, the string literals the engine throws as error kinds
(`throw "NO_INTENT_FOUND"`), and `Error`-like objects carrying a `.message`. -/
inductive JsErr where
  | typeError (msg : String)
  | thrownStr (s : String)
  | errObj (msg : String)
deriving Repr, DecidableEq

/-- `e.message` as the engine reads it in `handleError`: only `Error`-like
objects and `TypeError`s have a message property; reading `.message` of a
thrown string yields `undefined`. -/
def JsErr.message : JsErr → Option String
  | .typeError m => some m
  | .errObj m => some m
  | .thrownStr _ => none

/-! ## Session (src/Session.ts) -/

/-- The `session.user` payload of the inbound request. -/
structure UserPayload where
  accessToken : Option String
  userId : Option String
deriving Repr

/-- The `session` object of the inbound request body, when present.  Each
field is `Option` because the JS object may lack the property. -/
structure SessionPayload where
  user : Option UserPayload
  attributes : Option Attrs
  application : Option Attrs
  newFlag : Option Bool
  sessionId : Option String
deriving Repr

/-- The `details` object the Session constructor builds (field `newFlag`
models the JS property named `new`). -/
structure SessionDetails where
  accessToken : Option String
  attributes : Option Attrs
  application : Option Attrs
  newFlag : Option Bool
  sessionId : Option String
  userId : Option String
deriving Repr

/-- State of a constructed `Session` object.  `available` is the
`_isAvailable` flag; in the `undefined`-source branch of the constructor it is
never assigned (stays falsy) and the four methods `isNew`/`get`/`set`/`clear`
are replaced by a function that throws `"NO_SESSION"`; the operations below
model that by branching on `available`. -/
structure Session where
  available : Bool
  attributes : Attrs
  details : Option SessionDetails
  sessionId : Option String
deriving Repr

/-- `new Session(session)`.  For a defined source payload the constructor
reads `session.user.accessToken`: when `session.user` is absent this property
access throws a `TypeError` (claim C9's first scenario). -/
def Session.build : Option SessionPayload → Except JsErr Session
  | none =>
      .ok { available := false, attributes := [], details := none, sessionId := none }
  | some s =>
      match s.user with
      | none => .error (.typeError "Cannot read property 'accessToken' of undefined")
      | some u =>
          .ok { available := true
                attributes := s.attributes.getD []
                details := some { accessToken := u.accessToken
                                  attributes := s.attributes
                                  application := s.application
                                  newFlag := s.newFlag
                                  sessionId := s.sessionId
                                  userId := u.userId }
                sessionId := s.sessionId }

/-- `session.isAvailable()`: returns `_isAvailable` (falsy when the session
was built from `undefined`, since the flag is never assigned there). -/
def Session.isAvailable (s : Session) : Bool := s.available

/-- `session.isNew()`: `true === this.details.new`; throws `"NO_SESSION"` on
an unavailable session. -/
def Session.isNew (s : Session) : Except JsErr Bool :=
  if s.available then
    .ok ((s.details.bind SessionDetails.newFlag) == some true)
  else .error (.thrownStr "NO_SESSION")

/-- `session.getAttributes()`: a deep clone of the attribute mapping via
`JSON.parse(JSON.stringify(...))`.  In this value-level model cloning is the
identity; the reference-level model of the clone (for the deep-copy isolation
claim) is developed separately below. -/
def Session.getAttributes (s : Session) : Attrs := s.attributes

/-- `session.get(key)`: `this.getAttributes()[key]`; throws `"NO_SESSION"` on
an unavailable session. -/
def Session.get (s : Session) (k : String) : Except JsErr (Option PJson) :=
  if s.available then .ok (aget s.getAttributes k)
  else .error (.thrownStr "NO_SESSION")

/-- `session.set(key, value)`: direct mutation of the attribute mapping;
throws `"NO_SESSION"` on an unavailable session. -/
def Session.set (s : Session) (k : String) (v : PJson) : Except JsErr Session :=
  if s.available then .ok { s with attributes := aset s.attributes k v }
  else .error (.thrownStr "NO_SESSION")

/-- `session.clear(key)`: if `key` is a string and present, `delete` it;
otherwise reset the whole mapping to `{}`.  Throws `"NO_SESSION"` on an
unavailable session.  The argument is a JS value (`none` models calling with
no argument). -/
def Session.clear (s : Session) (key : Option PJson) : Except JsErr Session :=
  if s.available then
    .ok { s with attributes :=
            match key with
            | some (.str k) =>
                if (aget s.attributes k).isSome then adel s.attributes k
                else []
            | _ => [] }
  else .error (.thrownStr "NO_SESSION")

/-! ## SSML helpers (src/to-ssml.ts) -/

namespace SSML

/-- The two `replace(/<speak>/gi, " ")` / `replace(/<\/speak>/gi, " ")` steps
of `SSML.fromStr`.  The regexes are case-insensitive; the library itself only
ever produces lowercase speak tags, and the model matches the lowercase
form. -/
def stripSpeak (s : String) : String :=
  jsReplaceAll (jsReplaceAll s "<speak>" " ") "</speak>" " "

/-- `replace(/  +/, " ")` (no `g` flag): collapse the first run of two or
more spaces to a single space, leaving the rest of the string untouched. -/
def collapseFirstSpaces : List Char → List Char
  | ' ' :: ' ' :: rest => ' ' :: rest.dropWhile (fun c => c == ' ')
  | c :: rest => c :: collapseFirstSpaces rest
  | [] => []

/-- `SSML.fromStr(str, current_ssml?)`: strip any speak tags from both
strings, wrap the concatenation in one speak tag pair, and collapse the first
double space. -/
def fromStr (str : String) (current : Option String) : String :=
  let s := jsTrim (stripSpeak str)
  let c := jsTrim (stripSpeak (current.getD ""))
  let ssml := "<speak>" ++ c ++ (if c == "" then "" else " ") ++ s ++ "</speak>"
  String.mk (collapseFirstSpaces ssml.toList)

/-- Case-insensitive character comparison (the cleanse regex carries the `i`
flag). -/
def lowerEq (a b : Char) : Bool := a.toLower == b.toLower

/-- Try to consume `alt` (case-insensitively) from the front of `cs`,
returning the remainder. -/
def consumeAlt : List Char → List Char → Option (List Char)
  | [], cs => some cs
  | _ :: _, [] => none
  | a :: as, c :: cs => if lowerEq a c then consumeAlt as cs else none

/-- Word characters for the `\b` boundary of the `s\b` / `w\b` regex
alternatives. -/
def isWordChar (c : Char) : Bool := c.isAlphanum || c == '_'

/-- The tag-name alternatives of the cleanse regex
`/<\/?(speak|break|phoneme|audio|say-as|s\b|w\b)[^>]*>/gi`, in the regex's
alternation order; the `Bool` marks the alternatives followed by `\b`. -/
def tagAlternatives : List (List Char × Bool) :=
  [("speak".toList, false), ("break".toList, false), ("phoneme".toList, false),
   ("audio".toList, false), ("say-as".toList, false),
   (['s'], true), (['w'], true)]

/-- Match the part of the cleanse regex after the `<`: optional `/`, a tag
alternative (with its boundary), then `[^>]*>`.  Returns the text after the
closing `>` on success. -/
def tryTagMatch (cs : List Char) : Option (List Char) :=
  let cs1 := match cs with
    | '/' :: r => r
    | _ => cs
  let matched := tagAlternatives.findSome? (fun alt =>
    match consumeAlt alt.1 cs1 with
    | none => none
    | some rest =>
        if alt.2 then
          match rest with
          | [] => some rest
          | c :: _ => if isWordChar c then none else some rest
        else some rest)
  match matched with
  | none => none
  | some rest =>
      -- `[^>]*>`: everything up to the first `>` is consumed
      let afterName := rest.dropWhile (fun c => c != '>')
      match afterName with
      | '>' :: r => some r
      | _ => none

/-- First cleanse pass: replace each matched tag by a single space.  `fuel`
starts at the input length; every step consumes at least one character. -/
def cleanseTags : Nat → List Char → List Char
  | _, [] => []
  | 0, cs => cs
  | f + 1, '<' :: rest =>
      match tryTagMatch rest with
      | some rest2 => ' ' :: cleanseTags f rest2
      | none => '<' :: cleanseTags f rest
  | f + 1, c :: rest => c :: cleanseTags f rest

/-- Second cleanse pass `replace(/\s*\n\s*/g, "\n")`: a maximal whitespace
run containing a newline collapses to a single newline. -/
def collapseNewlineRuns : Nat → List Char → List Char
  | _, [] => []
  | 0, cs => cs
  | f + 1, c :: rest =>
      if c.isWhitespace then
        let run := c :: rest.takeWhile Char.isWhitespace
        let rest2 := rest.dropWhile Char.isWhitespace
        (if run.contains '\n' then ['\n'] else run) ++ collapseNewlineRuns f rest2
      else c :: collapseNewlineRuns f rest

/-- Third cleanse pass `replace(/  +/g, " ")`: every run of two or more
spaces collapses to one space. -/
def collapseSpacesAll : Nat → List Char → List Char
  | _, [] => []
  | 0, cs => cs
  | f + 1, ' ' :: ' ' :: rest => ' ' :: collapseSpacesAll f (rest.dropWhile (fun c => c == ' '))
  | f + 1, c :: rest => c :: collapseSpacesAll f rest

/-- Fourth cleanse pass `replace(/ ([.,!?;:])/g, "$1")`: drop a space that
directly precedes one of the punctuation characters. -/
def dropSpaceBeforePunct : List Char → List Char
  | [] => []
  | [c] => [c]
  | ' ' :: c :: rest =>
      if [',', '.', '!', '?', ';', ':'].contains c then c :: dropSpaceBeforePunct rest
      else ' ' :: dropSpaceBeforePunct (c :: rest)
  | c :: rest => c :: dropSpaceBeforePunct rest

/-- `SSML.cleanse(str)`: strip SSML tags and normalize whitespace for card
display. -/
def cleanse (s : String) : String :=
  let l1 := cleanseTags s.toList.length s.toList
  let l2 := collapseNewlineRuns l1.length l1
  let l3 := collapseSpacesAll l2.length l2
  let l4 := dropSpaceBeforePunct l3
  jsTrim (String.mk l4)

end SSML

/-! ## Response (src/Response.ts) -/

/-- The `image` block of a card descriptor; `in`-checks on the two size
fields drive validation. -/
structure CardImage where
  smallImageUrl : Option String
  largeImageUrl : Option String
deriving Repr

/-- A card descriptor as passed to `response.card`.  `cardType` models the
JS property named `type`; absent properties are `none`. -/
structure CardObj where
  cardType : Option String
  title : Option String
  content : Option String
  text : Option String
  image : Option CardImage
deriving Repr

/-- The structured output document `response.response` plus the top-level
`sessionAttributes` entry (absent until `prepare` runs).  Speech and reprompt
are stored as their SSML strings (the document wraps them as
`{"type": "SSML", "ssml": ...}`). -/
structure ResponseDoc where
  outputSpeech : Option String
  reprompt : Option String
  card : Option CardObj
  directives : List Attrs
  shouldEndSession : Bool
  sessionAttributes : Option Attrs
deriving Repr

/-- The document a fresh `Response` starts with: version 1.0, no speech, no
card, empty directives, `shouldEndSession: true`. -/
def ResponseDoc.initial : ResponseDoc :=
  { outputSpeech := none, reprompt := none, card := none, directives := [],
    shouldEndSession := true, sessionAttributes := none }

/-- `response.say(str)`: set the output speech, or append to it through
`SSML.fromStr`. -/
def Response.say (d : ResponseDoc) (s : String) : ResponseDoc :=
  match d.outputSpeech with
  | none => { d with outputSpeech := some (SSML.fromStr s none) }
  | some cur => { d with outputSpeech := some (SSML.fromStr s (some cur)) }

/-- `response.reprompt(str)`.  In the append branch the source reads
`['outputSpeech']['text']`, a property never written (the speech is stored
under `ssml`), so the current value passed to `SSML.fromStr` is `undefined`
and the previous reprompt text is dropped. -/
def Response.reprompt (d : ResponseDoc) (s : String) : ResponseDoc :=
  match d.reprompt with
  | none => { d with reprompt := some (SSML.fromStr s none) }
  | some _ => { d with reprompt := some (SSML.fromStr s none) }

/-- `response.prepare()`: snapshot the session attributes into the
document. -/
def Response.prepare (d : ResponseDoc) (s : Session) : ResponseDoc :=
  { d with sessionAttributes := some s.getAttributes }

/-- `response.card(card)` (single-argument form).  Mirrors the
`switch (card['type'])` of the source: `Simple` requires and cleanses
`content`; `Standard` first rejects an `image` block lacking both size
fields, then requires and cleanses `text`; any other type installs the card
unchanged.  Returns the updated document and the `console.error` messages
emitted. -/
def Response.card (d : ResponseDoc) (c : CardObj) : ResponseDoc × List String :=
  match c.cardType with
  | some "Simple" =>
      match c.content with
      | none => (d, ["Card object is missing required attr \"content\""])
      | some txt =>
          ({ d with card := some { c with content := some (SSML.cleanse txt) } }, [])
  | some "Standard" =>
      match c.image with
      | some im =>
          if im.smallImageUrl.isNone && im.largeImageUrl.isNone then
            (d, ["If card.image is defined, must specify at least smallImageUrl or largeImageUrl"])
          else
            match c.text with
            | none => (d, ["Card object is missing required attr \"text\""])
            | some txt =>
                ({ d with card := some { c with text := some (SSML.cleanse txt) } }, [])
      | none =>
          match c.text with
          | none => (d, ["Card object is missing required attr \"text\""])
          | some txt =>
              ({ d with card := some { c with text := some (SSML.cleanse txt) } }, [])
  | _ => ({ d with card := some c }, [])

/-- `response.linkAccount()`: install the fixed `LinkAccount` card. -/
def Response.linkAccount (d : ResponseDoc) : ResponseDoc :=
  { d with card := some { cardType := some "LinkAccount", title := none,
                          content := none, text := none, image := none } }

/-- `response.shouldEndSession(end, reprompt?)`. -/
def Response.shouldEndSession (d : ResponseDoc) (e : Bool) (r : Option String) : ResponseDoc :=
  let d1 := { d with shouldEndSession := e }
  match r with
  | some s => Response.reprompt d1 s
  | none => d1

/-! ## Request (src/Request.ts) -/

/-- `request.intent` of the raw body. -/
structure IntentPayload where
  name : String
deriving Repr

/-- The `request` object of the raw body (`rtype` models the JS property
named `type`). -/
structure RequestPayload where
  rtype : Option String
  intent : Option IntentPayload
deriving Repr

/-- `context.System.application`. -/
structure AppIdPayload where
  applicationId : Option String
deriving Repr

/-- `context.System`. -/
structure SystemPayload where
  user : Option UserPayload
  application : Option AppIdPayload
deriving Repr

/-- `context` of the raw body (`system` models the JS property named
`System`). -/
structure ContextPayload where
  system : Option SystemPayload
deriving Repr

/-- The raw decoded request body passed to `Application.request`. -/
structure RequestJson where
  session : Option SessionPayload
  context : Option ContextPayload
  request : Option RequestPayload
deriving Repr

/-- A constructed `Request` object (the fields the dispatch engine uses). -/
structure Request where
  data : RequestJson
  sessionObject : Session
  userId : Option String
  applicationId : Option String
  isSessionNew : Bool
  sessionId : Option String
deriving Repr

/-- `new Request(request_json)`.  Builds the Session; when `context` is
present it reads `context.System.user.userId` and
`context.System.application.applicationId` — when `System` (or its `user` /
`application`) is absent the property access throws a `TypeError` (claim C9's
second scenario). -/
def Request.build (rj : RequestJson) : Except JsErr Request := do
  let sess ← Session.build rj.session
  let ids ←
    match rj.context with
    | none => pure (none, none)
    | some c =>
        match c.system with
        | none => Except.error (JsErr.typeError "Cannot read property 'user' of undefined")
        | some sys =>
            match sys.user with
            | none => Except.error (JsErr.typeError "Cannot read property 'userId' of undefined")
            | some u =>
                match sys.application with
                | none => Except.error (JsErr.typeError "Cannot read property 'applicationId' of undefined")
                | some a => pure (u.userId, a.applicationId)
  let isNewFlag :=
    if sess.isAvailable then
      match sess.isNew with
      | .ok b => b
      | .error _ => false
    else false
  pure { data := rj, sessionObject := sess, userId := ids.1, applicationId := ids.2,
         isSessionNew := isNewFlag, sessionId := sess.sessionId }

/-- `request.type()`: `undefined` unless `data.request` and a truthy
`data.request.type` are present (the empty string is falsy in JS). -/
def Request.type (r : Request) : Option String :=
  match r.data.request with
  | some req =>
      match req.rtype with
      | some t => if t == "" then none else some t
      | none => none
  | none => none

/-- `request.isAudioPlayer()`: the type is defined and starts with the
literal `"AudioPlayer."`. -/
def Request.isAudioPlayer (r : Request) : Bool :=
  match r.type with
  | some t => jsStartsWith t "AudioPlayer."
  | none => false

/-! ## The dispatch engine (src/Application.ts, `Application.request`)

The per-dispatch closure of `Application.request` is modeled as an explicit
state.  Handlers, the pre hook and the application error handler are modeled
by the observable behavior they can exhibit at the engine boundary: calls to
`response.send` / `response.fail` / `response.say` and to the `done`
callback, a return value (promise-like / literal `false` / anything else /
a thrown value), and, for a promise-like return value, its later settlement.
The post hook is modeled as an invocation counter (its body is opaque to the
engine).
-/

/-- The default message table `Application.messages`. -/
def messages (k : String) : Option String :=
  if k == "NO_INTENT_FOUND" then
    some "Sorry, the application didn't know what to do with that intent"
  else if k == "NO_AUDIO_PLAYER_EVENT_HANDLER_FOUND" then
    some "Sorry, the application didn't know what to do with that AudioPlayer event"
  else if k == "NO_LAUNCH_FUNCTION" then
    some "Try telling the application what to do instead of opening it"
  else if k == "INVALID_REQUEST_TYPE" then
    some "Error: not a valid request"
  else if k == "NO_SESSION" then
    some "This request doesn't support session attributes"
  else if k == "GENERIC_ERROR" then
    some "Sorry, the application encountered an error"
  else none

/-- JS truthiness of a thrown value (`if (e) ...` in the done callback):
only an empty thrown string is falsy. -/
def JsErr.truthy : JsErr → Bool
  | .thrownStr s => !(s == "")
  | _ => true

/-- A call a hook or handler makes on the response object. -/
inductive Ev where
  | send : Ev
  | fail (msg : String) : Ev
  | say (s : String) : Ev
deriving Repr

/-- A call a handler makes while it runs: a response call or an invocation
of the `done` callback it was passed. -/
inductive HEv where
  | base (e : Ev) : HEv
  | done (err : Option JsErr) : HEv
deriving Repr

/-- An event of the asynchronous phase after the handler returned: a call
the handler scheduled, or the settlement of the promise it returned. -/
inductive AEv where
  | act (e : HEv) : AEv
  | settleP : AEv
deriving Repr

/-- The handler's synchronous return value.  `promise o` is a promise-like
object whose eventual settlement is fulfillment (`o = none`) or rejection
with reason `e` (`o = some e`). -/
inductive HRet where
  | promise (outcome : Option JsErr) : HRet
  | retFalse : HRet
  | other : HRet
  | throws (e : JsErr) : HRet
deriving Repr

/-- Everything a registered handler can do, observed at the engine
boundary. -/
structure HandlerBehavior where
  sync : List HEv
  ret : HRet
  async : List AEv
deriving Repr

/-- What the pre hook does: response calls, then optionally a thrown
value. -/
structure PreBehavior where
  events : List Ev
  thrown : Option JsErr
deriving Repr

/-- An `Application`'s registration state: intent handlers, the launch and
session-ended singletons, audio-player event handlers, the pre hook and the
optional application error handler (modeled by the response calls it makes;
the message table is the fixed default). -/
structure AppCfg where
  intents : List (String × HandlerBehavior)
  launchFunc : Option HandlerBehavior
  sessionEndedFunc : Option HandlerBehavior
  audioPlayerEventHandlers : List (String × HandlerBehavior)
  pre : PreBehavior
  errorHandler : Option (List Ev)
deriving Repr

/-- A settlement of the outer promise: `resolve(response.response)`, a
`reject` with the string message `response.fail` passes, or a `reject` with
a raw thrown value (executor throw during construction). -/
inductive Settle where
  | res (doc : ResponseDoc) : Settle
  | rejMsg (msg : String) : Settle
  | rejErr (e : JsErr) : Settle
deriving Repr

/-- Ghost trace events recording the order of post-hook runs and outer
settlements. -/
inductive TraceEv where
  | postEv : TraceEv
  | settleEv : TraceEv
deriving Repr, BEq, DecidableEq

/-- The per-dispatch engine state: the response document, the owning
session, the request classification, the three mutable latches of the
closure (`response.resolved`, `postExecuted`, `callbackHandlerCalled`), the
recorded outer settlements, the post-hook invocation count, and ghost
traces (`caught` records every argument `handleError` received). -/
structure EngineSt where
  doc : ResponseDoc
  session : Session
  requestType : Option String
  isAP : Bool
  resolved : Bool
  postExecuted : Bool
  callbackHandlerCalled : Bool
  settled : List Settle
  postCalls : Nat
  caught : List JsErr
  trace : List TraceEv
deriving Repr

/-- The overridden `response.send`: prepare, run the post hook if it has not
run yet, then resolve the outer promise unless already resolved. -/
def sendOp (st : EngineSt) : EngineSt :=
  let st1 := { st with doc := Response.prepare st.doc st.session }
  let st2 :=
    if !st1.postExecuted then
      { st1 with postExecuted := true, postCalls := st1.postCalls + 1,
                 trace := st1.trace ++ [TraceEv.postEv] }
    else st1
  if !st2.resolved then
    { st2 with resolved := true, settled := st2.settled ++ [Settle.res st2.doc],
               trace := st2.trace ++ [TraceEv.settleEv] }
  else st2

/-- The overridden `response.fail`: prepare, run the post hook if it has not
run yet, then reject the outer promise unless already resolved. -/
def failOp (st : EngineSt) (msg : String) : EngineSt :=
  let st1 := { st with doc := Response.prepare st.doc st.session }
  let st2 :=
    if !st1.postExecuted then
      { st1 with postExecuted := true, postCalls := st1.postCalls + 1,
                 trace := st1.trace ++ [TraceEv.postEv] }
    else st1
  if !st2.resolved then
    { st2 with resolved := true, settled := st2.settled ++ [Settle.rejMsg msg],
               trace := st2.trace ++ [TraceEv.settleEv] }
  else st2

/-- `response.say` inside a dispatch. -/
def sayOp (st : EngineSt) (s : String) : EngineSt :=
  { st with doc := Response.say st.doc s }

/-- Run one response call made by a hook. -/
def runEv (st : EngineSt) : Ev → EngineSt
  | .send => sendOp st
  | .fail m => failOp st m
  | .say s => sayOp st s

/-- Run a sequence of response calls. -/
def runEvs (st : EngineSt) (es : List Ev) : EngineSt :=
  es.foldl runEv st

/-- First half of `handleError`: invoke the configured error handler if any;
otherwise, for a thrown string with a message-table entry, speak the message
and send (or fail directly for audio-player requests). -/
def handleErrorCore (cfg : AppCfg) (st : EngineSt) (e : JsErr) : EngineSt :=
  match cfg.errorHandler with
  | some evs => runEvs st evs
  | none =>
      match e with
      | .thrownStr s =>
          match messages s with
          | some m =>
              if !st.isAP then sendOp (sayOp st m)
              else failOp st m
          | none => st
      | _ => st

/-- `handleError`: run the core recovery, then, if the response is still
unresolved, fail with the generic wrapped-exception message. -/
def handleError (cfg : AppCfg) (st : EngineSt) (e : JsErr) : EngineSt :=
  let st1 := handleErrorCore cfg { st with caught := st.caught ++ [e] } e
  if !st1.resolved then
    match e.message with
    | some m => failOp st1 ("Unhandled exception: " ++ m ++ ".")
    | none => failOp st1 "Unhandled exception."
  else st1

/-- The `done` callback handed to handlers: latched by
`callbackHandlerCalled`; a truthy argument routes to `handleError`, anything
else to `response.send()`. -/
def callbackHandler (cfg : AppCfg) (st : EngineSt) (e : Option JsErr) : EngineSt :=
  if st.callbackHandlerCalled then st
  else
    let st1 := { st with callbackHandlerCalled := true }
    match e with
    | some err => if err.truthy then handleError cfg st1 err else sendOp st1
    | none => sendOp st1

/-- Run one synchronous handler action. -/
def runHEv (cfg : AppCfg) (st : EngineSt) : HEv → EngineSt
  | .base e => runEv st e
  | .done oe => callbackHandler cfg st oe

/-- Result of the synchronous part of a dispatch: the state, a value thrown
inside the `try` block (if any), and the invoked handler's behavior together
with whether `asCallback` was attached to its returned promise. -/
structure DispatchRes where
  st : EngineSt
  thrown : Option JsErr
  invoked : Option (HandlerBehavior × Bool)
deriving Repr

/-- Invoke a located handler.  `thenOnResult` tells which object the branch
probes for a `.then` property: the three non-audio branches probe the
handler's result (so a promise-like result gets `asCallback` attached), while
the audio-player branch probes the registration record `{name, function}`,
which never has `.then` — so there a promise-like result falls through to the
`false !== result` auto-completion. -/
def invokeHandler (cfg : AppCfg) (st : EngineSt) (hb : HandlerBehavior)
    (thenOnResult : Bool) : DispatchRes :=
  let st1 := hb.sync.foldl (runHEv cfg) st
  match hb.ret with
  | .throws e => ⟨st1, some e, some (hb, false)⟩
  | .promise _ =>
      if thenOnResult then ⟨st1, none, some (hb, true)⟩
      else ⟨callbackHandler cfg st1 none, none, some (hb, false)⟩
  | .retFalse => ⟨st1, none, some (hb, false)⟩
  | .other => ⟨callbackHandler cfg st1 none, none, some (hb, false)⟩

/-- Handler-table lookup (`this.intents[name]`,
`this.audioPlayerEventHandlers[event]`). -/
def lookupHB (l : List (String × HandlerBehavior)) (k : String) : Option HandlerBehavior :=
  (l.find? (fun p => p.1 == k)).map (fun p => p.2)

/-- The classification / dispatch block of `Application.request` (the body
of `if (!response.resolved) { ... }` inside the `try`). -/
def dispatch (cfg : AppCfg) (rj : RequestJson) (req : Request) (st : EngineSt) : DispatchRes :=
  if st.requestType == some "IntentRequest" then
    -- const intent = request_json.request.intent.name  (raw-body access)
    match rj.request with
    | none => ⟨st, some (JsErr.typeError "Cannot read property 'intent' of undefined"), none⟩
    | some reqp =>
        match reqp.intent with
        | none => ⟨st, some (JsErr.typeError "Cannot read property 'name' of undefined"), none⟩
        | some ip =>
            match lookupHB cfg.intents ip.name with
            | some hb => invokeHandler cfg st hb true
            | none => ⟨st, some (JsErr.thrownStr "NO_INTENT_FOUND"), none⟩
  else if st.requestType == some "LaunchRequest" then
    match cfg.launchFunc with
    | some hb => invokeHandler cfg st hb true
    | none => ⟨st, some (JsErr.thrownStr "NO_LAUNCH_FUNCTION"), none⟩
  else if st.requestType == some "SessionEndedRequest" then
    match cfg.sessionEndedFunc with
    | some hb => invokeHandler cfg st hb true
    | none => ⟨sendOp st, none, none⟩
  else if req.isAudioPlayer then
    -- const event = requestType.slice(12)
    match lookupHB cfg.audioPlayerEventHandlers (jsSlice (st.requestType.getD "") 12) with
    | some hb => invokeHandler cfg st hb false
    | none => ⟨sendOp st, none, none⟩
  else ⟨st, some (JsErr.thrownStr "INVALID_REQUEST_TYPE"), none⟩

/-- One asynchronous-phase event: a scheduled handler action, or the
settlement of the returned promise (which drives the done callback only when
`asCallback` was attached). -/
def runAEv (cfg : AppCfg) (hb : HandlerBehavior) (attached : Bool)
    (st : EngineSt) : AEv → EngineSt
  | .act e => runHEv cfg st e
  | .settleP =>
      if attached then
        match hb.ret with
        | .promise none => callbackHandler cfg st none
        | .promise (some e) => callbackHandler cfg st (some e)
        | _ => st
      else st

/-- The outcome of `Application.request`: either the promise executor threw
during Request/Session construction (rejecting the outer promise with the
raw thrown value, before any hook or handler ran), or the dispatch ran to
quiescence with the given final engine state.  The invoked handler's
behavior is carried along as ghost data for stating completion properties. -/
inductive DispatchResult where
  | constructionError (e : JsErr) : DispatchResult
  | ran (st : EngineSt) (invoked : Option (HandlerBehavior × Bool)) : DispatchResult
deriving Repr

/-- The engine state right after `new Response(request.getSession())`:
nothing resolved, nothing settled, no hook has run. -/
def initSt (req : Request) : EngineSt :=
  { doc := ResponseDoc.initial, session := req.sessionObject,
    requestType := req.type, isAP := req.isAudioPlayer,
    resolved := false, postExecuted := false, callbackHandlerCalled := false,
    settled := [], postCalls := 0, caught := [], trace := [] }

/-- The `try` block of `Application.request`: run the pre hook (which may
throw), then dispatch unless the pre hook already resolved the response. -/
def preDispatch (cfg : AppCfg) (rj : RequestJson) (req : Request) : DispatchRes :=
  match cfg.pre.thrown with
  | some e => ⟨runEvs (initSt req) cfg.pre.events, some e, none⟩
  | none =>
      let st1 := runEvs (initSt req) cfg.pre.events
      if st1.resolved then ⟨st1, none, none⟩
      else dispatch cfg rj req st1

/-- The `catch` clause: anything thrown inside the `try` block goes to
`handleError`. -/
def afterTry (cfg : AppCfg) (r : DispatchRes) : EngineSt :=
  match r.thrown with
  | some e => handleError cfg r.st e
  | none => r.st

/-- The asynchronous phase after the `try`/`catch` completed: the events the
invoked handler scheduled and the settlement of its returned promise. -/
def asyncPhase (cfg : AppCfg) (r : DispatchRes) : EngineSt :=
  match r.invoked with
  | some (hb, attached) => hb.async.foldl (runAEv cfg hb attached) (afterTry cfg r)
  | none => afterTry cfg r

/-- `Application.request(request_json)`: construct Request/Response (a throw
here rejects the outer promise directly), run the `try`/`catch`, then the
asynchronous phase. -/
def Application.request (cfg : AppCfg) (rj : RequestJson) : DispatchResult :=
  match Request.build rj with
  | .error e => .constructionError e
  | .ok req =>
      .ran (asyncPhase cfg (preDispatch cfg rj req)) (preDispatch cfg rj req).invoked

/-- The settlements of the outer promise a dispatch performed. -/
def settlesOf : DispatchResult → List Settle
  | .constructionError e => [Settle.rejErr e]
  | .ran st _ => st.settled

/-- How many times the post hook ran. -/
def postCallsOf : DispatchResult → Nat
  | .constructionError _ => 0
  | .ran st _ => st.postCalls

/-- The arguments `handleError` received during the dispatch. -/
def caughtOf : DispatchResult → List JsErr
  | .constructionError _ => []
  | .ran st _ => st.caught

/-- The response document of a dispatch that resolved successfully exactly
once. -/
def resolvedDocOf : DispatchResult → Option ResponseDoc
  | .ran st _ =>
      match st.settled with
      | [Settle.res d] => some d
      | _ => none
  | .constructionError _ => none

/-! ## Reference-level model of `Session.getAttributes` (src/Session.ts)

The deep-copy-on-read guarantee is a statement about object identity, which
the value-level `Session` model cannot express.  Here JS objects live in an
explicit heap: a value is a primitive or a reference to a heap object, and
`JSON.parse(JSON.stringify(x))` becomes a deep copy that reads the reachable
object graph and allocates fresh addresses for every object it returns. -/

/-- A JS runtime value: a primitive or a reference to a heap object. -/
inductive HVal where
  | null : HVal
  | bool (b : Bool) : HVal
  | num (n : Int) : HVal
  | str (s : String) : HVal
  | ref (a : Nat) : HVal
deriving Repr, DecidableEq

/-- The fields of a heap object. -/
abbrev HFields := List (String × HVal)

/-- A heap: an association of addresses to objects. -/
abbrev Heap := List (Nat × HFields)

/-- Read the object at address `a`. -/
def hlookup (h : Heap) (a : Nat) : Option HFields :=
  (h.find? (fun p => p.1 == a)).map (fun p => p.2)

/-- Field assignment on an object's fields (`o[f] = v`). -/
def fset (fs : HFields) (f : String) (v : HVal) : HFields :=
  if fs.any (fun p => p.1 == f) then
    fs.map (fun p => if p.1 == f then (f, v) else p)
  else
    fs ++ [(f, v)]

/-- Mutate field `f` of the object at address `a` (`obj.f = v`). -/
def hwrite (h : Heap) (a : Nat) (f : String) (v : HVal) : Heap :=
  h.map (fun p => if p.1 == a then (p.1, fset p.2 f v) else p)

/-- `JSON.stringify`: read a value (`Sum.inl`) or an object's field list
(`Sum.inr`) out of the heap into a pure JSON tree.  `fuel` bounds the
recursion (stringify of a cyclic object throws in JS; here it returns
`none`); every recursive call decreases `fuel`, so concrete applications
evaluate by kernel reduction. -/
def strf (h : Heap) : Nat → HVal ⊕ HFields → Option (PJson ⊕ List (String × PJson))
  | _, .inl .null => some (.inl .null)
  | _, .inl (.bool b) => some (.inl (.bool b))
  | _, .inl (.num n) => some (.inl (.num n))
  | _, .inl (.str s) => some (.inl (.str s))
  | 0, .inl (.ref _) => none
  | fuel + 1, .inl (.ref a) =>
      match hlookup h a with
      | none => none
      | some fs =>
          match strf h fuel (.inr fs) with
          | some (.inr pfs) => some (.inl (.obj pfs))
          | _ => none
  | _, .inr [] => some (.inr [])
  | 0, .inr (_ :: _) => none
  | fuel + 1, .inr ((f, v) :: rest) =>
      match strf h fuel (.inl v) with
      | some (.inl pv) =>
          match strf h fuel (.inr rest) with
          | some (.inr prest) => some (.inr ((f, pv) :: prest))
          | _ => none
      | _ => none

/-- `JSON.parse(JSON.stringify(-))` in one pass: copy a value or field list
reachable from heap `h` into the accumulator heap `acc`, allocating a fresh
address (starting at `n`) for every object encountered.  Mirrors the fuel
discipline of `strf`. -/
def deepCopy (h : Heap) : Nat → HVal ⊕ HFields → Heap → Nat →
    Option ((HVal ⊕ HFields) × Heap × Nat)
  | _, .inl .null, acc, n => some (.inl .null, acc, n)
  | _, .inl (.bool b), acc, n => some (.inl (.bool b), acc, n)
  | _, .inl (.num m), acc, n => some (.inl (.num m), acc, n)
  | _, .inl (.str s), acc, n => some (.inl (.str s), acc, n)
  | 0, .inl (.ref _), _, _ => none
  | fuel + 1, .inl (.ref a), acc, n =>
      match hlookup h a with
      | none => none
      | some fs =>
          match deepCopy h fuel (.inr fs) acc n with
          | some (.inr fs2, acc2, n2) => some (.inl (.ref n2), acc2 ++ [(n2, fs2)], n2 + 1)
          | _ => none
  | _, .inr [], acc, n => some (.inr [], acc, n)
  | 0, .inr (_ :: _), _, _ => none
  | fuel + 1, .inr ((f, v) :: rest), acc, n =>
      match deepCopy h fuel (.inl v) acc n with
      | some (.inl v2, acc2, n2) =>
          match deepCopy h fuel (.inr rest) acc2 n2 with
          | some (.inr rest2, acc3, n3) => some (.inr ((f, v2) :: rest2), acc3, n3)
          | _ => none
      | _ => none

/-- The reference-level state of a session: the JS heap, the fields of the
internal `this.attributes` object, and the next fresh address. -/
structure SessionH where
  h : Heap
  attrs : HFields
  counter : Nat
deriving Repr

/-- Reference-level `session.getAttributes()`: deep-copy the attribute
object (`JSON.parse(JSON.stringify(this.attributes))`), allocating the root
copy last.  Returns the reference to the copy, the grown heap and the new
allocation counter. -/
def getAttributesH (fuel : Nat) (s : SessionH) : Option (HVal × Heap × Nat) :=
  match deepCopy s.h fuel (.inr s.attrs) s.h s.counter with
  | some (.inr fs2, h2, n2) => some (.ref n2, h2 ++ [(n2, fs2)], n2 + 1)
  | _ => none

/-- Reference-level `session.get(key)`: `getAttributes()[key]` — read field
`key` of the freshly returned copy. -/
def getH (fuel : Nat) (s : SessionH) (k : String) : Option (Option HVal × Heap × Nat) :=
  match getAttributesH fuel s with
  | some (.ref a, h2, n2) =>
      match hlookup h2 a with
      | some fs => some ((fs.find? (fun p => p.1 == k)).map (fun p => p.2), h2, n2)
      | none => none
  | _ => none

/-- The pure JSON value a handler can observe from `session.get(k)`: field
`k` of the stringified internal attribute object. -/
def getPure (fuel : Nat) (h : Heap) (attrs : HFields) (k : String) :
    Option (Option PJson) :=
  match strf h fuel (.inr attrs) with
  | some (.inr pfs) => some ((pfs.find? (fun p => p.1 == k)).map (fun p => p.2))
  | _ => none

/-- All references of a value lie below `n`. -/
def valBelow (n : Nat) : HVal → Prop
  | .ref a => a < n
  | _ => True

/-- All references of a field list lie below `n`. -/
def fieldsBelow (n : Nat) (fs : HFields) : Prop :=
  ∀ p ∈ fs, valBelow n p.2

/-- All references of a value lie in `[lo, hi)`. -/
def valIn (lo hi : Nat) : HVal → Prop
  | .ref a => lo ≤ a ∧ a < hi
  | _ => True

/-- All references of a field list lie in `[lo, hi)`. -/
def fieldsIn (lo hi : Nat) (fs : HFields) : Prop :=
  ∀ p ∈ fs, valIn lo hi p.2

/-- Every address in the heap's domain lies below `n`. -/
def heapDomBelow (n : Nat) (h : Heap) : Prop :=
  ∀ e ∈ h, e.1 < n

/-- Every reference stored in the heap lies below `n`. -/
def heapRefsBelow (n : Nat) (h : Heap) : Prop :=
  ∀ e ∈ h, fieldsBelow n e.2

/-- A closed-world heap: domain and stored references below the allocation
counter. -/
def heapWF (n : Nat) (h : Heap) : Prop :=
  heapDomBelow n h ∧ heapRefsBelow n h

/-- `valBelow` / `fieldsBelow` on the sum type `strf` consumes. -/
def sumBelow (n : Nat) : HVal ⊕ HFields → Prop
  | .inl v => valBelow n v
  | .inr fs => fieldsBelow n fs

/-- `valIn` / `fieldsIn` on the sum type `deepCopy` produces. -/
def sumIn (lo hi : Nat) : HVal ⊕ HFields → Prop
  | .inl v => valIn lo hi v
  | .inr fs => fieldsIn lo hi fs

/-- Stringify a single value. -/
def strfV (h : Heap) (fuel : Nat) (v : HVal) : Option PJson :=
  match strf h fuel (.inl v) with
  | some (.inl t) => some t
  | _ => none

/-- The pure JSON content of the session's internal attribute object. -/
def pureAttrs (fuel : Nat) (s : SessionH) : Option PJson :=
  match strf s.h fuel (.inr s.attrs) with
  | some (.inr pfs) => some (.obj pfs)
  | _ => none

/-! ### Concrete instances used in witnesses and counterexamples -/

/-- An application with no registered handlers, the default (no-op) pre hook
and no error handler. -/
def emptyCfg : AppCfg :=
  { intents := [], launchFunc := none, sessionEndedFunc := none,
    audioPlayerEventHandlers := [],
    pre := { events := [], thrown := none },
    errorHandler := none }

/-- A minimal IntentRequest body for intent `nm` (no session, no context). -/
def intentRJ (nm : String) : RequestJson :=
  { session := none, context := none,
    request := some { rtype := some "IntentRequest", intent := some { name := nm } } }

/-- A minimal LaunchRequest body. -/
def launchRJ : RequestJson :=
  { session := none, context := none,
    request := some { rtype := some "LaunchRequest", intent := none } }

/-- A request body with the unrecognized, non-media type `"Bogus"`. -/
def bogusRJ : RequestJson :=
  { session := none, context := none,
    request := some { rtype := some "Bogus", intent := none } }

/-- An IntentRequest body lacking the `request.intent` object. -/
def noIntentRJ : RequestJson :=
  { session := none, context := none,
    request := some { rtype := some "IntentRequest", intent := none } }

/-- A minimal AudioPlayer event request body. -/
def audioRJ : RequestJson :=
  { session := none, context := none,
    request := some { rtype := some "AudioPlayer.PlaybackFinished", intent := none } }

/-- A body whose `session` object is present but lacks the `user` field. -/
def badSessionRJ : RequestJson :=
  { session := some { user := none, attributes := none, application := none,
                      newFlag := none, sessionId := none },
    context := none, request := none }

/-- A body whose `context` object is present but lacks the `System` field. -/
def badContextRJ : RequestJson :=
  { session := none, context := some { system := none }, request := none }

/-- A handler that returns the literal `false` and never completes. -/
def falseHB : HandlerBehavior := { sync := [], ret := .retFalse, async := [] }

/-- A handler that returns a promise which later rejects with an `Error`
whose message is `"boom"`. -/
def promiseRejectHB : HandlerBehavior :=
  { sync := [], ret := .promise (some (.errObj "boom")), async := [.settleP] }

/-- A handler that calls `response.send()` twice and then returns a plain
value. -/
def doubleSendHB : HandlerBehavior :=
  { sync := [.base .send, .base .send], ret := .other, async := [] }

/-- The session the constructor builds from an `undefined` source payload. -/
def unavailableSession : Session :=
  { available := false, attributes := [], details := none, sessionId := none }

/-- An available session with two attributes (used in witnesses). -/
def sampleSession : Session :=
  { available := true,
    attributes := [("x", PJson.num 1), ("y", PJson.num 2)],
    details := none, sessionId := none }

/-- A reference-level session whose attribute `"x"` points at a shared
object `{a: 1}` stored at address 0. -/
def sessionC5 : SessionH :=
  { h := [(0, [("a", HVal.num 1)])], attrs := [("x", HVal.ref 0)], counter := 1 }

/-- The heap `getAttributesH 3 sessionC5` produces: the original object at
address 0, its copy at address 1, and the copied root object at address 2. -/
def heapAfterCopy : Heap :=
  [(0, [("a", HVal.num 1)]), (1, [("a", HVal.num 1)]), (2, [("x", HVal.ref 1)])]

/-- The final engine state of a dispatch that ran (used to state witnesses;
arbitrary fallback for the construction-error case). -/
def extractSt : DispatchResult → EngineSt
  | .ran st _ => st
  | .constructionError _ =>
      { doc := ResponseDoc.initial,
        session := { available := false, attributes := [], details := none, sessionId := none },
        requestType := none, isAP := false, resolved := false, postExecuted := false,
        callbackHandlerCalled := false, settled := [], postCalls := 0, caught := [],
        trace := [] }

/-- The handler actions that inevitably settle the outer promise once they
run: `send`, `fail`, and any invocation of the done callback. -/
def HEv.isCompletion : HEv → Bool
  | .base (.say _) => false
  | .base .send => true
  | .base (.fail _) => true
  | .done _ => true


/-- The asynchronous-phase events that inevitably settle the outer promise:
scheduled completion actions, and the settlement of a promise the engine
actually attached `asCallback` to. -/
def AEvCompletes (hb : HandlerBehavior) (attached : Bool) : AEv → Bool
  | .act e => e.isCompletion
  | .settleP =>
      attached && (match hb.ret with | .promise _ => true | _ => false)


/-- Return values that complete the dispatch on their own: a non-promise,
non-`false` value auto-invokes the done callback; a promise the engine did
not attach to (the audio-player typo) is also auto-completed; a thrown value
reaches `handleError`, which always resolves. -/
def retTrig : HRet → Bool → Bool
  | .throws _, _ => true
  | .other, _ => true
  | .promise _, att => !att
  | .retFalse, _ => false

/-- A handler behavior fires at least one completion channel. -/
def triggersCompletion (hb : HandlerBehavior) (att : Bool) : Bool :=
  hb.sync.any HEv.isCompletion || retTrig hb.ret att ||
  hb.async.any (AEvCompletes hb att)


/-! ## Engine invariants

`Inv0` ties the closure latches to the observable effects: the outer
promise has been settled exactly as often as `resolved` says, the post hook
has run exactly as often as `postExecuted` says, a resolved dispatch has run
its post hook, and the ghost trace records the post-hook run strictly before
the settlement.  `Inv` adds that a consumed done callback implies resolution
(which holds at every quiescent point, though it is transiently false inside
`callbackHandler` between taking the latch and completing). -/
def Inv0 (st : EngineSt) : Prop :=
  st.settled.length = (if st.resolved then 1 else 0) ∧
  st.postCalls = (if st.postExecuted then 1 else 0) ∧
  (st.resolved = true → st.postExecuted = true) ∧
  st.trace = (if st.postExecuted then [TraceEv.postEv] else []) ++
             (if st.resolved then [TraceEv.settleEv] else [])

def Inv (st : EngineSt) : Prop :=
  Inv0 st ∧ (st.callbackHandlerCalled = true → st.resolved = true)

theorem sendOp_resolved (st : EngineSt) : (sendOp st).resolved = true := by
  unfold sendOp
  cases hp : st.postExecuted <;> cases hr : st.resolved <;> simp [hp, hr]

theorem failOp_resolved (st : EngineSt) (m : String) : (failOp st m).resolved = true := by
  unfold failOp
  cases hp : st.postExecuted <;> cases hr : st.resolved <;> simp [hp, hr]

theorem sendOp_inv0 {st : EngineSt} (h : Inv0 st) : Inv0 (sendOp st) := by
  obtain ⟨h1, h2, h3, h5⟩ := h
  unfold Inv0 sendOp
  cases hp : st.postExecuted <;> cases hr : st.resolved <;>
    simp [hp, hr] at h1 h2 h5 <;>
    simp_all [hp, hr, h1, h2, h5]

theorem failOp_inv0 {st : EngineSt} (h : Inv0 st) (m : String) : Inv0 (failOp st m) := by
  obtain ⟨h1, h2, h3, h5⟩ := h
  unfold Inv0 failOp
  cases hp : st.postExecuted <;> cases hr : st.resolved <;>
    simp [hp, hr] at h1 h2 h5 <;>
    simp_all [hp, hr, h1, h2, h5]

theorem sayOp_inv0 {st : EngineSt} (h : Inv0 st) (s : String) : Inv0 (sayOp st s) := h

theorem sayOp_resolved (st : EngineSt) (s : String) : (sayOp st s).resolved = st.resolved := rfl

theorem sendOp_cb (st : EngineSt) :
    (sendOp st).callbackHandlerCalled = st.callbackHandlerCalled := by
  unfold sendOp
  cases hp : st.postExecuted <;> cases hr : st.resolved <;> simp [hp, hr]

theorem failOp_cb (st : EngineSt) (m : String) :
    (failOp st m).callbackHandlerCalled = st.callbackHandlerCalled := by
  unfold failOp
  cases hp : st.postExecuted <;> cases hr : st.resolved <;> simp [hp, hr]

theorem sendOp_inv {st : EngineSt} (h : Inv st) : Inv (sendOp st) :=
  ⟨sendOp_inv0 h.1, fun _ => sendOp_resolved st⟩

theorem failOp_inv {st : EngineSt} (h : Inv st) (m : String) : Inv (failOp st m) :=
  ⟨failOp_inv0 h.1 m, fun _ => failOp_resolved st m⟩

theorem sayOp_inv {st : EngineSt} (h : Inv st) (s : String) : Inv (sayOp st s) := h

theorem runEv_inv {st : EngineSt} (h : Inv st) (e : Ev) : Inv (runEv st e) := by
  cases e with
  | send => exact sendOp_inv h
  | fail m => exact failOp_inv h m
  | say s => exact sayOp_inv h s

theorem runEv_mono {st : EngineSt} (h : st.resolved = true) (e : Ev) :
    (runEv st e).resolved = true := by
  cases e with
  | send => exact sendOp_resolved st
  | fail m => exact failOp_resolved st m
  | say s => rw [runEv, sayOp_resolved]; exact h

theorem runEvs_inv {es : List Ev} : ∀ {st : EngineSt}, Inv st → Inv (runEvs st es) := by
  induction es with
  | nil => intro st h; exact h
  | cons e es ih =>
      intro st h
      exact ih (runEv_inv h e)

theorem runEvs_mono {es : List Ev} : ∀ {st : EngineSt}, st.resolved = true →
    (runEvs st es).resolved = true := by
  induction es with
  | nil => intro st h; exact h
  | cons e es ih =>
      intro st h
      exact ih (runEv_mono h e)

theorem handleError_resolved (cfg : AppCfg) (st : EngineSt) (e : JsErr) :
    (handleError cfg st e).resolved = true := by
  unfold handleError
  by_cases hr : (handleErrorCore cfg { st with caught := st.caught ++ [e] } e).resolved = true
  · simp [hr]
  · simp only [Bool.not_eq_true] at hr
    simp only [hr]
    cases hm : e.message with
    | some m => simp [failOp_resolved]
    | none => simp [failOp_resolved]

theorem runEv_inv0 {st : EngineSt} (h : Inv0 st) (e : Ev) : Inv0 (runEv st e) := by
  cases e with
  | send => exact sendOp_inv0 h
  | fail m => exact failOp_inv0 h m
  | say s => exact sayOp_inv0 h s

theorem runEvs_inv0 {es : List Ev} : ∀ {st : EngineSt}, Inv0 st → Inv0 (runEvs st es) := by
  induction es with
  | nil => intro st h; exact h
  | cons e es ih =>
      intro st h
      exact ih (runEv_inv0 h e)

theorem handleErrorCore_inv0 {cfg : AppCfg} {st : EngineSt} (h : Inv0 st) (e : JsErr) :
    Inv0 (handleErrorCore cfg st e) := by
  unfold handleErrorCore
  split
  · exact runEvs_inv0 h
  · split
    · split
      · split
        · exact sendOp_inv0 (sayOp_inv0 h _)
        · exact failOp_inv0 h _
      · exact h
    · exact h

theorem handleError_inv0 {cfg : AppCfg} {st : EngineSt} (h : Inv0 st) (e : JsErr) :
    Inv0 (handleError cfg st e) := by
  unfold handleError
  have h0 : Inv0 { st with caught := st.caught ++ [e] } := h
  have h1 : Inv0 (handleErrorCore cfg { st with caught := st.caught ++ [e] } e) :=
    handleErrorCore_inv0 h0 e
  by_cases hr : (handleErrorCore cfg { st with caught := st.caught ++ [e] } e).resolved = true
  · simp [hr]; exact h1
  · simp only [Bool.not_eq_true] at hr
    simp only [hr]
    cases hm : e.message with
    | some m => simp; exact failOp_inv0 h1 _
    | none => simp; exact failOp_inv0 h1 _

theorem callbackHandler_resolved {cfg : AppCfg} {st : EngineSt} (h : Inv st)
    (e : Option JsErr) : (callbackHandler cfg st e).resolved = true := by
  unfold callbackHandler
  by_cases hc : st.callbackHandlerCalled = true
  · simp [hc]
    exact h.2 hc
  · simp only [Bool.not_eq_true] at hc
    simp only [hc]
    cases e with
    | some err =>
        by_cases ht : err.truthy = true
        · simp [ht, handleError_resolved]
        · simp only [Bool.not_eq_true] at ht
          simp [ht, sendOp_resolved]
    | none => simp [sendOp_resolved]

theorem callbackHandler_mono {cfg : AppCfg} {st : EngineSt} (h : st.resolved = true)
    (e : Option JsErr) : (callbackHandler cfg st e).resolved = true := by
  unfold callbackHandler
  by_cases hc : st.callbackHandlerCalled = true
  · simp [hc]; exact h
  · simp only [Bool.not_eq_true] at hc
    simp only [hc]
    cases e with
    | some err =>
        by_cases ht : err.truthy = true
        · simp [ht, handleError_resolved]
        · simp only [Bool.not_eq_true] at ht
          simp [ht, sendOp_resolved]
    | none => simp [sendOp_resolved]

theorem callbackHandler_inv {cfg : AppCfg} {st : EngineSt} (h : Inv st)
    (e : Option JsErr) : Inv (callbackHandler cfg st e) := by
  unfold callbackHandler
  by_cases hc : st.callbackHandlerCalled = true
  · simp [hc]; exact h
  · simp only [Bool.not_eq_true] at hc
    simp only [hc]
    have h1 : Inv0 { st with callbackHandlerCalled := true } := h.1
    cases e with
    | some err =>
        by_cases ht : err.truthy = true
        · simp only [ht]
          exact ⟨handleError_inv0 h1 err, fun _ => handleError_resolved cfg _ err⟩
        · simp only [Bool.not_eq_true] at ht
          simp only [ht]
          exact ⟨sendOp_inv0 h1, fun _ => sendOp_resolved _⟩
    | none =>
        exact ⟨sendOp_inv0 h1, fun _ => sendOp_resolved _⟩

theorem runHEv_inv {cfg : AppCfg} {st : EngineSt} (h : Inv st) (e : HEv) :
    Inv (runHEv cfg st e) := by
  cases e with
  | base ev => exact runEv_inv h ev
  | done oe => exact callbackHandler_inv h oe

theorem runHEv_mono {cfg : AppCfg} {st : EngineSt} (h : st.resolved = true) (e : HEv) :
    (runHEv cfg st e).resolved = true := by
  cases e with
  | base ev => exact runEv_mono h ev
  | done oe => exact callbackHandler_mono h oe

theorem syncFold_inv {cfg : AppCfg} {es : List HEv} :
    ∀ {st : EngineSt}, Inv st → Inv (es.foldl (runHEv cfg) st) := by
  induction es with
  | nil => intro st h; exact h
  | cons e es ih =>
      intro st h
      exact ih (runHEv_inv h e)

theorem syncFold_mono {cfg : AppCfg} {es : List HEv} :
    ∀ {st : EngineSt}, st.resolved = true → (es.foldl (runHEv cfg) st).resolved = true := by
  induction es with
  | nil => intro st h; exact h
  | cons e es ih =>
      intro st h
      exact ih (runHEv_mono h e)

theorem runHEv_completes {cfg : AppCfg} {st : EngineSt} (h : Inv st) {e : HEv}
    (hc : e.isCompletion = true) : (runHEv cfg st e).resolved = true := by
  cases e with
  | base ev =>
      cases ev with
      | send => exact sendOp_resolved st
      | fail m => exact failOp_resolved st m
      | say s => simp [HEv.isCompletion] at hc
  | done oe => exact callbackHandler_resolved h oe

theorem syncFold_completes {cfg : AppCfg} {es : List HEv} :
    ∀ {st : EngineSt}, Inv st → es.any HEv.isCompletion = true →
      (es.foldl (runHEv cfg) st).resolved = true := by
  induction es with
  | nil => intro st _ hany; simp at hany
  | cons e es ih =>
      intro st h hany
      rw [List.any_cons] at hany
      rw [List.foldl_cons]
      rcases Bool.or_eq_true_iff.mp hany with hc | hrest
      · exact syncFold_mono (runHEv_completes h hc)
      · exact ih (runHEv_inv h e) hrest

theorem runAEv_inv {cfg : AppCfg} {hb : HandlerBehavior} {attached : Bool}
    {st : EngineSt} (h : Inv st) (e : AEv) : Inv (runAEv cfg hb attached st e) := by
  cases e with
  | act ev => exact runHEv_inv h ev
  | settleP =>
      obtain ⟨sy, ret, asy⟩ := hb
      cases ha : attached
      · simpa [runAEv, ha] using h
      · cases ret with
        | promise o =>
            cases o with
            | none =>
                simp only [runAEv, ha]
                exact @callbackHandler_inv cfg st h none
            | some err =>
                simp only [runAEv, ha]
                exact @callbackHandler_inv cfg st h (some err)
        | retFalse => simpa [runAEv, ha] using h
        | other => simpa [runAEv, ha] using h
        | throws e2 => simpa [runAEv, ha] using h

theorem runAEv_mono {cfg : AppCfg} {hb : HandlerBehavior} {attached : Bool}
    {st : EngineSt} (h : st.resolved = true) (e : AEv) :
    (runAEv cfg hb attached st e).resolved = true := by
  cases e with
  | act ev => exact runHEv_mono h ev
  | settleP =>
      obtain ⟨sy, ret, asy⟩ := hb
      cases ha : attached
      · simpa [runAEv, ha] using h
      · cases ret with
        | promise o =>
            cases o with
            | none =>
                simp only [runAEv, ha]
                exact @callbackHandler_mono cfg st h none
            | some err =>
                simp only [runAEv, ha]
                exact @callbackHandler_mono cfg st h (some err)
        | retFalse => simpa [runAEv, ha] using h
        | other => simpa [runAEv, ha] using h
        | throws e2 => simpa [runAEv, ha] using h

theorem runAEv_completes {cfg : AppCfg} {hb : HandlerBehavior} {attached : Bool}
    {st : EngineSt} (h : Inv st) {e : AEv} (hc : AEvCompletes hb attached e = true) :
    (runAEv cfg hb attached st e).resolved = true := by
  cases e with
  | act ev => exact runHEv_completes h hc
  | settleP =>
      obtain ⟨sy, ret, asy⟩ := hb
      cases ha : attached
      · rw [ha] at hc
        simp [AEvCompletes] at hc
      · cases ret with
        | promise o =>
            cases o with
            | none =>
                simp only [runAEv, ha]
                exact @callbackHandler_resolved cfg st h none
            | some err =>
                simp only [runAEv, ha]
                exact @callbackHandler_resolved cfg st h (some err)
        | retFalse => rw [ha] at hc; simp [AEvCompletes] at hc
        | other => rw [ha] at hc; simp [AEvCompletes] at hc
        | throws e2 => rw [ha] at hc; simp [AEvCompletes] at hc

theorem asyncFold_inv {cfg : AppCfg} {hb : HandlerBehavior} {attached : Bool}
    {es : List AEv} : ∀ {st : EngineSt}, Inv st →
      Inv (es.foldl (runAEv cfg hb attached) st) := by
  induction es with
  | nil => intro st h; exact h
  | cons e es ih =>
      intro st h
      exact ih (runAEv_inv h e)

theorem asyncFold_mono {cfg : AppCfg} {hb : HandlerBehavior} {attached : Bool}
    {es : List AEv} : ∀ {st : EngineSt}, st.resolved = true →
      (es.foldl (runAEv cfg hb attached) st).resolved = true := by
  induction es with
  | nil => intro st h; exact h
  | cons e es ih =>
      intro st h
      exact ih (runAEv_mono h e)

theorem asyncFold_completes {cfg : AppCfg} {hb : HandlerBehavior} {attached : Bool}
    {es : List AEv} : ∀ {st : EngineSt}, Inv st →
      es.any (AEvCompletes hb attached) = true →
      (es.foldl (runAEv cfg hb attached) st).resolved = true := by
  induction es with
  | nil => intro st _ hany; simp at hany
  | cons e es ih =>
      intro st h hany
      rw [List.any_cons] at hany
      rw [List.foldl_cons]
      rcases Bool.or_eq_true_iff.mp hany with hc | hrest
      · exact asyncFold_mono (runAEv_completes h hc)
      · exact ih (runAEv_inv h e) hrest

theorem invokeHandler_inv {cfg : AppCfg} {st : EngineSt} {hb : HandlerBehavior}
    {thenOn : Bool} (h : Inv st) : Inv (invokeHandler cfg st hb thenOn).st := by
  have h1 : Inv (hb.sync.foldl (runHEv cfg) st) := syncFold_inv h
  obtain ⟨sy, ret, asy⟩ := hb
  cases ret with
  | promise o =>
      cases thenOn with
      | true => exact h1
      | false =>
          simp only [invokeHandler]
          exact @callbackHandler_inv cfg _ h1 none
  | retFalse => exact h1
  | other =>
      simp only [invokeHandler]
      exact @callbackHandler_inv cfg _ h1 none
  | throws e => exact h1

theorem invokeHandler_invoked {cfg : AppCfg} {st : EngineSt} {hb : HandlerBehavior}
    {thenOn : Bool} :
    (invokeHandler cfg st hb thenOn).invoked =
      some (hb, thenOn && (match hb.ret with | .promise _ => true | _ => false)) := by
  obtain ⟨sy, ret, asy⟩ := hb
  cases ret with
  | promise o => cases thenOn <;> simp [invokeHandler]
  | retFalse => cases thenOn <;> simp [invokeHandler]
  | other => cases thenOn <;> simp [invokeHandler]
  | throws e => cases thenOn <;> simp [invokeHandler]

theorem invokeHandler_thrown {cfg : AppCfg} {st : EngineSt} {hb : HandlerBehavior}
    {thenOn : Bool} :
    (invokeHandler cfg st hb thenOn).thrown =
      (match hb.ret with | .throws e => some e | _ => none) := by
  obtain ⟨sy, ret, asy⟩ := hb
  cases ret with
  | promise o => cases thenOn <;> simp [invokeHandler]
  | retFalse => cases thenOn <;> simp [invokeHandler]
  | other => cases thenOn <;> simp [invokeHandler]
  | throws e => cases thenOn <;> simp [invokeHandler]

theorem invokeHandler_completes {cfg : AppCfg} {st : EngineSt} {hb : HandlerBehavior}
    {thenOn : Bool} (h : Inv st)
    (htr : (hb.sync.any HEv.isCompletion ||
            retTrig hb.ret (thenOn && (match hb.ret with | .promise _ => true | _ => false))) = true)
    (hnt : ∀ e, hb.ret ≠ .throws e) :
    (invokeHandler cfg st hb thenOn).st.resolved = true := by
  have h1 : Inv (hb.sync.foldl (runHEv cfg) st) := syncFold_inv h
  obtain ⟨sy, ret, asy⟩ := hb
  rcases Bool.or_eq_true_iff.mp htr with hsy | hret
  · -- a synchronous send/fail/done completed during the handler body
    have h2 : (sy.foldl (runHEv cfg) st).resolved = true := syncFold_completes h hsy
    cases ret with
    | promise o =>
        cases thenOn with
        | true => exact h2
        | false =>
            simp only [invokeHandler]
            exact @callbackHandler_mono cfg _ h2 none
    | retFalse => exact h2
    | other =>
        simp only [invokeHandler]
        exact @callbackHandler_mono cfg _ h2 none
    | throws e => exact h2
  · -- the return value auto-completed
    cases ret with
    | promise o =>
        cases thenOn with
        | true => simp [retTrig] at hret
        | false =>
            simp only [invokeHandler]
            exact @callbackHandler_resolved cfg _ h1 none
    | retFalse => simp [retTrig] at hret
    | other =>
        simp only [invokeHandler]
        exact @callbackHandler_resolved cfg _ h1 none
    | throws e => exact absurd rfl (hnt e)

/-- The dispatch block has exactly four kinds of exit: it throws (with the
state untouched), a default branch sends immediately, or it invokes a located
handler with the result-probing or record-probing `.then` check. -/
theorem dispatch_cases (cfg : AppCfg) (rj : RequestJson) (req : Request) (st : EngineSt) :
    (∃ e, dispatch cfg rj req st = ⟨st, some e, none⟩) ∨
    (dispatch cfg rj req st = ⟨sendOp st, none, none⟩) ∨
    (∃ hb, dispatch cfg rj req st = invokeHandler cfg st hb true) ∨
    (∃ hb, dispatch cfg rj req st = invokeHandler cfg st hb false) := by
  unfold dispatch
  split
  · split
    · exact Or.inl ⟨_, rfl⟩
    · split
      · exact Or.inl ⟨_, rfl⟩
      · split
        · exact Or.inr (Or.inr (Or.inl ⟨_, rfl⟩))
        · exact Or.inl ⟨_, rfl⟩
  · split
    · split
      · exact Or.inr (Or.inr (Or.inl ⟨_, rfl⟩))
      · exact Or.inl ⟨_, rfl⟩
    · split
      · split
        · exact Or.inr (Or.inr (Or.inl ⟨_, rfl⟩))
        · exact Or.inr (Or.inl rfl)
      · split
        · split
          · exact Or.inr (Or.inr (Or.inr ⟨_, rfl⟩))
          · exact Or.inr (Or.inl rfl)
        · exact Or.inl ⟨_, rfl⟩

theorem dispatch_inv {cfg : AppCfg} {rj : RequestJson} {req : Request}
    {st : EngineSt} (h : Inv st) : Inv (dispatch cfg rj req st).st := by
  rcases dispatch_cases cfg rj req st with ⟨e, hd⟩ | hd | ⟨hb, hd⟩ | ⟨hb, hd⟩ <;> rw [hd]
  · exact h
  · exact sendOp_inv h
  · exact invokeHandler_inv h
  · exact invokeHandler_inv h

theorem dispatch_defaults_resolved {cfg : AppCfg} {rj : RequestJson} {req : Request}
    {st : EngineSt}
    (hth : (dispatch cfg rj req st).thrown = none)
    (hin : (dispatch cfg rj req st).invoked = none) :
    (dispatch cfg rj req st).st.resolved = true := by
  rcases dispatch_cases cfg rj req st with ⟨e, hd⟩ | hd | ⟨hb, hd⟩ | ⟨hb, hd⟩ <;>
    rw [hd] at hth hin ⊢
  · simp at hth
  · exact sendOp_resolved st
  · rw [invokeHandler_invoked] at hin; simp at hin
  · rw [invokeHandler_invoked] at hin; simp at hin

theorem dispatch_invoked_shape {cfg : AppCfg} {rj : RequestJson} {req : Request}
    {st : EngineSt} {hb : HandlerBehavior} {att : Bool}
    (hin : (dispatch cfg rj req st).invoked = some (hb, att)) :
    (dispatch cfg rj req st = invokeHandler cfg st hb true ∧
       att = (true && (match hb.ret with | .promise _ => true | _ => false))) ∨
    (dispatch cfg rj req st = invokeHandler cfg st hb false ∧
       att = (false && (match hb.ret with | .promise _ => true | _ => false))) := by
  rcases dispatch_cases cfg rj req st with ⟨e, hd⟩ | hd | ⟨hb2, hd⟩ | ⟨hb2, hd⟩ <;> rw [hd] at hin
  · simp at hin
  · simp at hin
  · rw [invokeHandler_invoked] at hin
    rw [Option.some_inj, Prod.mk.injEq] at hin
    left
    constructor
    · rw [hd, hin.1]
    · rw [← hin.1]
      exact hin.2.symm
  · rw [invokeHandler_invoked] at hin
    rw [Option.some_inj, Prod.mk.injEq] at hin
    right
    constructor
    · rw [hd, hin.1]
    · rw [← hin.1]
      exact hin.2.symm

theorem initSt_inv (req : Request) : Inv (initSt req) := by
  refine ⟨⟨rfl, rfl, ?_, rfl⟩, ?_⟩ <;> intro h <;> simp [initSt] at h

theorem handleError_inv {cfg : AppCfg} {st : EngineSt} (h : Inv st) (e : JsErr) :
    Inv (handleError cfg st e) :=
  ⟨handleError_inv0 h.1 e, fun _ => handleError_resolved cfg st e⟩

theorem preDispatch_inv (cfg : AppCfg) (rj : RequestJson) (req : Request) :
    Inv (preDispatch cfg rj req).st := by
  unfold preDispatch
  split
  · exact runEvs_inv (initSt_inv req)
  · simp only
    split
    · exact runEvs_inv (initSt_inv req)
    · exact dispatch_inv (runEvs_inv (initSt_inv req))

theorem afterTry_inv {cfg : AppCfg} {r : DispatchRes} (h : Inv r.st) :
    Inv (afterTry cfg r) := by
  unfold afterTry
  split
  · exact handleError_inv h _
  · exact h

theorem afterTry_mono {cfg : AppCfg} {r : DispatchRes} (h : r.st.resolved = true) :
    (afterTry cfg r).resolved = true := by
  unfold afterTry
  split
  · exact handleError_resolved _ _ _
  · exact h

theorem afterTry_thrown {cfg : AppCfg} {r : DispatchRes} {e : JsErr}
    (ht : r.thrown = some e) : (afterTry cfg r).resolved = true := by
  unfold afterTry
  split
  · exact handleError_resolved _ _ _
  · rename_i hn
    rw [ht] at hn
    exact absurd hn (by simp)

theorem asyncPhase_inv {cfg : AppCfg} {r : DispatchRes} (h : Inv r.st) :
    Inv (asyncPhase cfg r) := by
  unfold asyncPhase
  split
  · exact asyncFold_inv (afterTry_inv h)
  · exact afterTry_inv h

theorem asyncPhase_mono {cfg : AppCfg} {r : DispatchRes}
    (h : (afterTry cfg r).resolved = true) : (asyncPhase cfg r).resolved = true := by
  unfold asyncPhase
  split
  · exact asyncFold_mono h
  · exact h

theorem request_inv {cfg : AppCfg} {rj : RequestJson} {st : EngineSt}
    {inv : Option (HandlerBehavior × Bool)}
    (h : Application.request cfg rj = .ran st inv) : Inv st := by
  unfold Application.request at h
  cases hb : Request.build rj with
  | error e => rw [hb] at h; simp at h
  | ok req =>
      rw [hb] at h
      simp only [DispatchResult.ran.injEq] at h
      rw [← h.1]
      exact asyncPhase_inv (preDispatch_inv cfg rj req)

/-- When no handler was invoked, every surviving path has already settled the
outer promise by the time the dispatch quiesces. -/
theorem request_none_resolves {cfg : AppCfg} {rj : RequestJson} {st : EngineSt}
    (h : Application.request cfg rj = .ran st none) : st.resolved = true := by
  unfold Application.request at h
  cases hb : Request.build rj with
  | error e => rw [hb] at h; simp at h
  | ok req =>
      rw [hb] at h
      simp only [DispatchResult.ran.injEq] at h
      obtain ⟨h1, h2⟩ := h
      rw [← h1]
      have hin : (preDispatch cfg rj req).invoked = none := h2
      unfold asyncPhase
      rw [hin]
      unfold preDispatch at hin ⊢
      cases hpt : cfg.pre.thrown with
      | some e =>
          simp only [hpt]
          exact afterTry_thrown (r := ⟨runEvs (initSt req) cfg.pre.events, some e, none⟩) rfl
      | none =>
          simp only [hpt]
          simp only [hpt] at hin
          by_cases hres : (runEvs (initSt req) cfg.pre.events).resolved = true
          · simp only [hres, if_true]
            exact afterTry_mono hres
          · simp only [Bool.not_eq_true] at hres
            simp only [hres, Bool.false_eq_true, if_false] at hin ⊢
            cases hth : (dispatch cfg rj req (runEvs (initSt req) cfg.pre.events)).thrown with
            | some e => exact afterTry_thrown hth
            | none => exact afterTry_mono (dispatch_defaults_resolved hth hin)

/-- When the invoked handler's behavior fires any completion channel, the
outer promise is settled by quiescence. -/
theorem request_trigger_resolves {cfg : AppCfg} {rj : RequestJson} {st : EngineSt}
    {hb : HandlerBehavior} {att : Bool}
    (h : Application.request cfg rj = .ran st (some (hb, att)))
    (htr : triggersCompletion hb att = true) : st.resolved = true := by
  unfold Application.request at h
  cases hbr : Request.build rj with
  | error e => rw [hbr] at h; simp at h
  | ok req =>
      rw [hbr] at h
      simp only [DispatchResult.ran.injEq] at h
      obtain ⟨h1, h2⟩ := h
      rw [← h1]
      have hin : (preDispatch cfg rj req).invoked = some (hb, att) := h2
      -- a handler is only invoked from the dispatch block
      have hpre : ∃ st1, Inv st1 ∧ preDispatch cfg rj req = dispatch cfg rj req st1 := by
        unfold preDispatch at hin ⊢
        cases hpt : cfg.pre.thrown with
        | some e => simp only [hpt] at hin; simp at hin
        | none =>
            simp only [hpt] at hin ⊢
            by_cases hres : (runEvs (initSt req) cfg.pre.events).resolved = true
            · simp only [hres, if_true] at hin; simp at hin
            · simp only [Bool.not_eq_true] at hres
              simp only [hres, Bool.false_eq_true, if_false] at hin ⊢
              exact ⟨_, runEvs_inv (initSt_inv req), rfl⟩
      obtain ⟨st1, hinv1, hpd⟩ := hpre
      rw [hpd] at hin ⊢
      rcases dispatch_invoked_shape hin with ⟨hd, hatt⟩ | ⟨hd, hatt⟩ <;> rw [hd] at hin ⊢
      · -- result-probing branch (`asCallback` attached iff a promise came back)
        unfold asyncPhase
        rw [hin]
        unfold triggersCompletion at htr
        rcases Bool.or_eq_true_iff.mp htr with hsr | hasy
        · rcases hret : hb.ret with o | _ | _ | e2
          case throws =>
              have hthr : (invokeHandler cfg st1 hb true).thrown = some e2 := by
                rw [invokeHandler_thrown, hret]
              exact asyncFold_mono (afterTry_thrown hthr)
          all_goals
            refine asyncFold_mono (afterTry_mono ?_)
            refine invokeHandler_completes hinv1 ?_ (by intro e3 hcon; rw [hret] at hcon; cases hcon)
            rw [hatt] at hsr
            exact hsr
        · exact asyncFold_completes (afterTry_inv (invokeHandler_inv hinv1)) hasy
      · -- record-probing branch (audio player): never attached
        unfold asyncPhase
        rw [hin]
        unfold triggersCompletion at htr
        rcases Bool.or_eq_true_iff.mp htr with hsr | hasy
        · rcases hret : hb.ret with o | _ | _ | e2
          case throws =>
              have hthr : (invokeHandler cfg st1 hb false).thrown = some e2 := by
                rw [invokeHandler_thrown, hret]
              exact asyncFold_mono (afterTry_thrown hthr)
          all_goals
            refine asyncFold_mono (afterTry_mono ?_)
            refine invokeHandler_completes hinv1 ?_ (by intro e3 hcon; rw [hret] at hcon; cases hcon)
            rw [hatt] at hsr
            exact hsr
        · exact asyncFold_completes (afterTry_inv (invokeHandler_inv hinv1)) hasy

/-! ## Heap lemmas: freshness, framing and faithfulness of the deep copy -/

theorem hlookup_mem {h : Heap} {a : Nat} {fs : HFields} (hl : hlookup h a = some fs) :
    (a, fs) ∈ h := by
  induction h with
  | nil => simp [hlookup] at hl
  | cons e h ih =>
      obtain ⟨e1, e2⟩ := e
      by_cases he : e1 = a
      · subst he
        simp only [hlookup] at hl
        rw [List.find?_cons_of_pos _ (by simp)] at hl
        simp at hl
        subst hl
        exact List.mem_cons_self _ _
      · simp only [hlookup] at hl
        rw [List.find?_cons_of_neg _ (by simp [he])] at hl
        exact List.mem_cons_of_mem _ (ih hl)

theorem hlookup_append_low {h extra : Heap} {a n : Nat}
    (hex : ∀ e ∈ extra, n ≤ e.1) (ha : a < n) :
    hlookup (h ++ extra) a = hlookup h a := by
  unfold hlookup
  rw [List.find?_append]
  have hnone : extra.find? (fun p => p.1 == a) = none := by
    rw [List.find?_eq_none]
    intro e he
    have := hex e he
    simp
    omega
  rw [hnone, Option.or_none]

theorem hlookup_append_self {h : Heap} {m : Nat} {fs : HFields}
    (hdom : ∀ e ∈ h, e.1 < m) :
    hlookup (h ++ [(m, fs)]) m = some fs := by
  unfold hlookup
  rw [List.find?_append]
  have hnone : h.find? (fun p => p.1 == m) = none := by
    rw [List.find?_eq_none]
    intro e he
    have := hdom e he
    simp
    omega
  rw [hnone, Option.none_or]
  rw [List.find?_cons_of_pos _ (by simp)]
  rfl

theorem hlookup_hwrite_ne {h : Heap} {a a2 : Nat} {f : String} {v : HVal}
    (hne : a2 ≠ a) : hlookup (hwrite h a f v) a2 = hlookup h a2 := by
  induction h with
  | nil => rfl
  | cons e h ih =>
      obtain ⟨e1, e2⟩ := e
      unfold hwrite at ih ⊢
      simp only [List.map_cons]
      by_cases hc : e1 = a
      · have hb : (e1 == a) = true := by simp [hc]
        have hb2 : (e1 == a2) = false := by simp; omega
        simp only [hb, if_true]
        unfold hlookup
        rw [List.find?_cons_of_neg _ (by simp; omega),
            List.find?_cons_of_neg _ (by simp; omega)]
        exact ih
      · have hb : (e1 == a) = false := by simp [hc]
        simp only [hb, Bool.false_eq_true, if_false]
        by_cases hd : e1 = a2
        · subst hd
          unfold hlookup
          rw [List.find?_cons_of_pos _ (by simp), List.find?_cons_of_pos _ (by simp)]
        · unfold hlookup
          rw [List.find?_cons_of_neg _ (by simp [hd]), List.find?_cons_of_neg _ (by simp [hd])]
          exact ih

theorem valBelow_mono {n m : Nat} (hnm : n ≤ m) {v : HVal} (h : valBelow n v) :
    valBelow m v := by
  cases v <;> simp [valBelow] at h ⊢ <;> omega

theorem fieldsBelow_mono {n m : Nat} (hnm : n ≤ m) {fs : HFields}
    (h : fieldsBelow n fs) : fieldsBelow m fs :=
  fun p hp => valBelow_mono hnm (h p hp)

theorem valIn_below {lo hi : Nat} {v : HVal} (h : valIn lo hi v) : valBelow hi v := by
  cases v <;> simp [valIn, valBelow] at h ⊢ <;> omega

theorem fieldsIn_below {lo hi : Nat} {fs : HFields} (h : fieldsIn lo hi fs) :
    fieldsBelow hi fs :=
  fun p hp => valIn_below (h p hp)

theorem valIn_mono {lo hi lo2 hi2 : Nat} (h1 : lo2 ≤ lo) (h2 : hi ≤ hi2) {v : HVal}
    (h : valIn lo hi v) : valIn lo2 hi2 v := by
  cases v <;> simp [valIn] at h ⊢ <;> omega

theorem fieldsIn_mono {lo hi lo2 hi2 : Nat} (h1 : lo2 ≤ lo) (h2 : hi ≤ hi2) {fs : HFields}
    (h : fieldsIn lo hi fs) : fieldsIn lo2 hi2 fs :=
  fun p hp => valIn_mono h1 h2 (h p hp)

theorem strf_frame {n : Nat} {h hB : Heap}
    (hagree : ∀ a, a < n → hlookup hB a = hlookup h a)
    (hrefs : heapRefsBelow n h) :
    ∀ fuel x, sumBelow n x → strf hB fuel x = strf h fuel x := by
  intro fuel
  induction fuel with
  | zero =>
      intro x hx
      match x with
      | .inl .null => rfl
      | .inl (.bool b) => rfl
      | .inl (.num m) => rfl
      | .inl (.str s) => rfl
      | .inl (.ref a) => rfl
      | .inr [] => rfl
      | .inr (p :: rest) => rfl
  | succ fuel ih =>
      intro x hx
      match x with
      | .inl .null => rfl
      | .inl (.bool b) => rfl
      | .inl (.num m) => rfl
      | .inl (.str s) => rfl
      | .inl (.ref a) =>
          have ha : a < n := hx
          simp only [strf]
          rw [hagree a ha]
          cases hl : hlookup h a with
          | none => rfl
          | some fs =>
              have hfs : fieldsBelow n fs := hrefs _ (hlookup_mem hl)
              simp only [ih (.inr fs) hfs]
      | .inr [] => rfl
      | .inr ((f, v) :: rest) =>
          have hv : valBelow n v := hx (f, v) (by simp)
          have hrest : fieldsBelow n rest := fun p hp => hx p (by simp [hp])
          simp only [strf]
          simp only [ih (.inl v) hv, ih (.inr rest) hrest]

theorem deepCopy_spec {h : Heap} :
    ∀ fuel x acc n y acc2 n2,
      deepCopy h fuel x acc n = some (y, acc2, n2) →
      n ≤ n2 ∧
      (∃ extra, acc2 = acc ++ extra ∧
         ∀ e ∈ extra, n ≤ e.1 ∧ e.1 < n2 ∧ fieldsBelow n2 e.2) ∧
      sumIn n n2 y := by
  intro fuel
  induction fuel with
  | zero =>
      intro x acc n y acc2 n2 hdc
      match x with
      | .inl .null =>
          simp [deepCopy] at hdc
          obtain ⟨hy, hacc, hn⟩ := hdc
          subst hy; subst hacc; subst hn
          exact ⟨le_refl n, ⟨[], by simp⟩, trivial⟩
      | .inl (.bool b) =>
          simp [deepCopy] at hdc
          obtain ⟨hy, hacc, hn⟩ := hdc
          subst hy; subst hacc; subst hn
          exact ⟨le_refl n, ⟨[], by simp⟩, trivial⟩
      | .inl (.num m) =>
          simp [deepCopy] at hdc
          obtain ⟨hy, hacc, hn⟩ := hdc
          subst hy; subst hacc; subst hn
          exact ⟨le_refl n, ⟨[], by simp⟩, trivial⟩
      | .inl (.str s) =>
          simp [deepCopy] at hdc
          obtain ⟨hy, hacc, hn⟩ := hdc
          subst hy; subst hacc; subst hn
          exact ⟨le_refl n, ⟨[], by simp⟩, trivial⟩
      | .inl (.ref a) => simp [deepCopy] at hdc
      | .inr [] =>
          simp [deepCopy] at hdc
          obtain ⟨hy, hacc, hn⟩ := hdc
          subst hy; subst hacc; subst hn
          refine ⟨le_refl n, ⟨[], by simp⟩, ?_⟩
          intro p hp
          simp at hp
      | .inr (p :: rest) => simp [deepCopy] at hdc
  | succ fuel ih =>
      intro x acc n y acc2 n2 hdc
      match x with
      | .inl .null =>
          simp [deepCopy] at hdc
          obtain ⟨hy, hacc, hn⟩ := hdc
          subst hy; subst hacc; subst hn
          exact ⟨le_refl n, ⟨[], by simp⟩, trivial⟩
      | .inl (.bool b) =>
          simp [deepCopy] at hdc
          obtain ⟨hy, hacc, hn⟩ := hdc
          subst hy; subst hacc; subst hn
          exact ⟨le_refl n, ⟨[], by simp⟩, trivial⟩
      | .inl (.num m) =>
          simp [deepCopy] at hdc
          obtain ⟨hy, hacc, hn⟩ := hdc
          subst hy; subst hacc; subst hn
          exact ⟨le_refl n, ⟨[], by simp⟩, trivial⟩
      | .inl (.str s) =>
          simp [deepCopy] at hdc
          obtain ⟨hy, hacc, hn⟩ := hdc
          subst hy; subst hacc; subst hn
          exact ⟨le_refl n, ⟨[], by simp⟩, trivial⟩
      | .inl (.ref a) =>
          simp only [deepCopy] at hdc
          split at hdc
          · simp at hdc
          · split at hdc
            · rename_i sc1 fsv heq1 sc2 fs2 accm nm hd1
              simp only [Option.some.injEq, Prod.mk.injEq] at hdc
              obtain ⟨hy, hacc, hn⟩ := hdc
              subst hy; subst hacc; subst hn
              obtain ⟨hle, ⟨extra, heq, hex⟩, hin⟩ := ih (.inr fsv) acc n _ _ _ hd1
              subst heq
              refine ⟨by omega, ⟨extra ++ [(nm, fs2)], by simp, ?_⟩, ?_⟩
              · intro e he
                rw [List.mem_append] at he
                rcases he with he | he
                · obtain ⟨h1, h2, h3⟩ := hex e he
                  exact ⟨h1, by omega, fieldsBelow_mono (by omega) h3⟩
                · rw [List.mem_singleton] at he
                  subst he
                  exact ⟨hle, by omega,
                    fieldsBelow_mono (by omega) (fieldsIn_below hin)⟩
              · exact ⟨hle, by omega⟩
            · simp at hdc
      | .inr [] =>
          simp [deepCopy] at hdc
          obtain ⟨hy, hacc, hn⟩ := hdc
          subst hy; subst hacc; subst hn
          refine ⟨le_refl n, ⟨[], by simp⟩, ?_⟩
          intro p hp
          simp at hp
      | .inr ((f, v) :: rest) =>
          simp only [deepCopy] at hdc
          split at hdc
          · rename_i sc1 v2 accm nm hd1
            split at hdc
            · rename_i sc2 rest2 acc3 n3 hd2
              simp only [Option.some.injEq, Prod.mk.injEq] at hdc
              obtain ⟨hy, hacc, hn⟩ := hdc
              subst hy; subst hacc; subst hn
              obtain ⟨hle1, ⟨ex1, heq1, hex1⟩, hin1⟩ :=
                ih (.inl v) acc n _ _ _ hd1
              obtain ⟨hle2, ⟨ex2, heq2, hex2⟩, hin2⟩ :=
                ih (.inr rest) accm nm _ _ _ hd2
              subst heq1
              subst heq2
              refine ⟨by omega, ⟨ex1 ++ ex2, by simp, ?_⟩, ?_⟩
              · intro e he
                rw [List.mem_append] at he
                rcases he with he | he
                · obtain ⟨h1, h2, h3⟩ := hex1 e he
                  exact ⟨h1, by omega, fieldsBelow_mono (by omega) h3⟩
                · obtain ⟨h1, h2, h3⟩ := hex2 e he
                  exact ⟨by omega, h2, h3⟩
              · intro p hp
                rw [List.mem_cons] at hp
                rcases hp with hp | hp
                · subst hp
                  exact valIn_mono (le_refl n) hle2 hin1
                · exact valIn_mono hle1 (le_refl n3) (hin2 p hp)
            · simp at hdc
          · simp at hdc

theorem deepCopy_wf {h : Heap} {fuel : Nat} {x : HVal ⊕ HFields} {acc : Heap}
    {n : Nat} {y : HVal ⊕ HFields} {acc2 : Heap} {n2 : Nat}
    (hwf : heapWF n acc)
    (hdc : deepCopy h fuel x acc n = some (y, acc2, n2)) : heapWF n2 acc2 := by
  obtain ⟨hle, ⟨extra, heq, hex⟩, _⟩ := deepCopy_spec fuel x acc n y acc2 n2 hdc
  subst heq
  constructor
  · intro e he
    rw [List.mem_append] at he
    rcases he with he | he
    · have := hwf.1 e he
      omega
    · exact (hex e he).2.1
  · intro e he
    rw [List.mem_append] at he
    rcases he with he | he
    · exact fieldsBelow_mono hle (hwf.2 e he)
    · exact (hex e he).2.2

theorem deepCopy_strf {h : Heap} :
    ∀ fuel x acc n y acc2 n2,
      heapWF n acc →
      deepCopy h fuel x acc n = some (y, acc2, n2) →
      strf acc2 fuel y = strf h fuel x := by
  intro fuel
  induction fuel with
  | zero =>
      intro x acc n y acc2 n2 hwf hdc
      match x with
      | .inl .null =>
          simp [deepCopy] at hdc
          obtain ⟨hy, hacc, hn⟩ := hdc
          subst hy
          rfl
      | .inl (.bool b) =>
          simp [deepCopy] at hdc
          obtain ⟨hy, hacc, hn⟩ := hdc
          subst hy
          rfl
      | .inl (.num m) =>
          simp [deepCopy] at hdc
          obtain ⟨hy, hacc, hn⟩ := hdc
          subst hy
          rfl
      | .inl (.str s) =>
          simp [deepCopy] at hdc
          obtain ⟨hy, hacc, hn⟩ := hdc
          subst hy
          rfl
      | .inl (.ref a) => simp [deepCopy] at hdc
      | .inr [] =>
          simp [deepCopy] at hdc
          obtain ⟨hy, hacc, hn⟩ := hdc
          subst hy
          rfl
      | .inr (p :: rest) => simp [deepCopy] at hdc
  | succ fuel ih =>
      intro x acc n y acc2 n2 hwf hdc
      match x with
      | .inl .null =>
          simp [deepCopy] at hdc
          obtain ⟨hy, hacc, hn⟩ := hdc
          subst hy
          rfl
      | .inl (.bool b) =>
          simp [deepCopy] at hdc
          obtain ⟨hy, hacc, hn⟩ := hdc
          subst hy
          rfl
      | .inl (.num m) =>
          simp [deepCopy] at hdc
          obtain ⟨hy, hacc, hn⟩ := hdc
          subst hy
          rfl
      | .inl (.str s) =>
          simp [deepCopy] at hdc
          obtain ⟨hy, hacc, hn⟩ := hdc
          subst hy
          rfl
      | .inr [] =>
          simp [deepCopy] at hdc
          obtain ⟨hy, hacc, hn⟩ := hdc
          subst hy
          rfl
      | .inl (.ref a) =>
          simp only [deepCopy] at hdc
          split at hdc
          · simp at hdc
          · split at hdc
            · rename_i sc1 fsv heq1 sc2 fs2 accm nm hd1
              simp only [Option.some.injEq, Prod.mk.injEq] at hdc
              obtain ⟨hy, hacc, hn⟩ := hdc
              subst hy; subst hacc; subst hn
              have hwfm : heapWF nm accm := deepCopy_wf hwf hd1
              obtain ⟨hle, ⟨extra, heq, hex⟩, hin⟩ :=
                deepCopy_spec fuel (.inr fsv) acc n _ _ _ hd1
              have hl2 : hlookup (accm ++ [(nm, fs2)]) nm = some fs2 :=
                hlookup_append_self (fun e he => hwfm.1 e he)
              simp only [strf, hl2, heq1]
              have hstep : strf (accm ++ [(nm, fs2)]) fuel (.inr fs2) =
                  strf accm fuel (.inr fs2) := by
                refine strf_frame ?_ hwfm.2 fuel (.inr fs2) (fieldsIn_below hin)
                intro b hb
                refine hlookup_append_low ?_ hb
                intro e he
                rw [List.mem_singleton] at he
                subst he
                exact le_refl nm
              rw [hstep, ih (.inr fsv) acc n _ _ _ hwf hd1]
            · simp at hdc
      | .inr ((f, v) :: rest) =>
          simp only [deepCopy] at hdc
          split at hdc
          · rename_i sc1 v2 accm nm hd1
            split at hdc
            · rename_i sc2 rest2 acc3 n3 hd2
              simp only [Option.some.injEq, Prod.mk.injEq] at hdc
              obtain ⟨hy, hacc, hn⟩ := hdc
              subst hy; subst hacc; subst hn
              have hwfm : heapWF nm accm := deepCopy_wf hwf hd1
              obtain ⟨hle1, ⟨ex1, heq1, hex1⟩, hin1⟩ :=
                deepCopy_spec fuel (.inl v) acc n _ _ _ hd1
              obtain ⟨hle2, ⟨ex2, heq2, hex2⟩, hin2⟩ :=
                deepCopy_spec fuel (.inr rest) accm nm _ _ _ hd2
              have hstep : strf acc3 fuel (.inl v2) = strf accm fuel (.inl v2) := by
                subst heq2
                refine strf_frame ?_ hwfm.2 fuel (.inl v2) (valIn_below hin1)
                intro b hb
                refine hlookup_append_low ?_ hb
                intro e he
                exact (hex2 e he).1
              simp only [strf]
              rw [hstep, ih (.inl v) acc n _ _ _ hwf hd1,
                  ih (.inr rest) accm nm _ _ _ hwfm hd2]
            · simp at hdc
          · simp at hdc

/-- C5: for every available session and key, the values returned by
`get(k)`/`getAttributes()` are deep copies sharing no references with the
session's internal attribute mapping — every reference in the returned copy
is a freshly allocated address, the copy's pure JSON content equals that of
the internal mapping, and mutating any object of the copy (a field write at
any fresh address) never changes the result of a subsequent `get(k)` or
`getAttributes()` unless `set` is called explicitly. -/
theorem claim_C5_deep_copy_isolation (s : SessionH) (fuel : Nat)
    (hwf : heapWF s.counter s.h) (hattrs : fieldsBelow s.counter s.attrs)
    (copy : HVal) (h2 : Heap) (n2 : Nat)
    (hga : getAttributesH fuel s = some (copy, h2, n2)) :
    valIn s.counter n2 copy ∧
    strfV h2 (fuel + 1) copy = pureAttrs fuel s ∧
    (∀ a f v k fuel2, s.counter ≤ a →
        getPure fuel2 (hwrite h2 a f v) s.attrs k = getPure fuel2 s.h s.attrs k) ∧
    (∀ a f v fuel2, s.counter ≤ a →
        strf (hwrite h2 a f v) fuel2 (.inr s.attrs) = strf s.h fuel2 (.inr s.attrs)) := by
  unfold getAttributesH at hga
  split at hga
  · rename_i sc fs2 h2m n2m hd
    simp only [Option.some.injEq, Prod.mk.injEq] at hga
    obtain ⟨hcopy, hh2, hn2⟩ := hga
    subst hcopy; subst hh2; subst hn2
    have hwfm : heapWF n2m h2m := deepCopy_wf hwf hd
    obtain ⟨hle, ⟨extra, heq, hex⟩, hin⟩ :=
      deepCopy_spec fuel (.inr s.attrs) s.h s.counter _ _ _ hd
    have hagree : ∀ a f v, s.counter ≤ a → ∀ b, b < s.counter →
        hlookup (hwrite (h2m ++ [(n2m, fs2)]) a f v) b = hlookup s.h b := by
      intro a f v ha b hb
      rw [hlookup_hwrite_ne (by omega)]
      rw [hlookup_append_low (fun e he => by
        rw [List.mem_singleton] at he
        subst he
        simp) (by omega : b < n2m)]
      rw [heq]
      exact hlookup_append_low (fun e he => (hex e he).1) hb
    refine ⟨⟨hle, by omega⟩, ?_, ?_, ?_⟩
    · -- faithful copy
      have hl2 : hlookup (h2m ++ [(n2m, fs2)]) n2m = some fs2 :=
        hlookup_append_self (fun e he => hwfm.1 e he)
      have hstep : strf (h2m ++ [(n2m, fs2)]) fuel (.inr fs2) =
          strf h2m fuel (.inr fs2) := by
        refine strf_frame ?_ hwfm.2 fuel (.inr fs2) (fieldsIn_below hin)
        intro b hb
        refine hlookup_append_low ?_ hb
        intro e he
        rw [List.mem_singleton] at he
        subst he
        exact le_refl n2m
      have hmain : strf h2m fuel (.inr fs2) = strf s.h fuel (.inr s.attrs) :=
        deepCopy_strf fuel (.inr s.attrs) s.h s.counter _ _ _ hwf hd
      unfold strfV pureAttrs
      simp only [strf, hl2, hstep, hmain]
      cases hres : strf s.h fuel (.inr s.attrs) with
      | none => rfl
      | some out =>
          cases out with
          | inl t => rfl
          | inr pfs => rfl
    · -- get(k) unchanged under mutation of the copy
      intro a f v k fuel2 ha
      unfold getPure
      rw [strf_frame (hagree a f v ha) hwf.2 fuel2 (.inr s.attrs) hattrs]
    · -- getAttributes observable unchanged under mutation of the copy
      intro a f v fuel2 ha
      exact strf_frame (hagree a f v ha) hwf.2 fuel2 (.inr s.attrs) hattrs
  · simp at hga

/-- Witness for C5 at the spec's own example: `set("x", {a: 1})`, take the
copy, mutate the copied object, and observe `get("x")` unchanged. -/
theorem claim_C5_witness :
    valIn 1 3 (HVal.ref 2) ∧
    getPure 3 (hwrite heapAfterCopy 1 "a" (HVal.num 2)) sessionC5.attrs "x" =
      getPure 3 sessionC5.h sessionC5.attrs "x" := by
  obtain ⟨h1, h2, h3, h4⟩ :=
    claim_C5_deep_copy_isolation sessionC5 3
      (by simp [heapWF, heapDomBelow, heapRefsBelow, fieldsBelow, valBelow, sessionC5])
      (by simp [fieldsBelow, valBelow, sessionC5])
      (HVal.ref 2) heapAfterCopy 3 (by rfl)
  exact ⟨h1, h3 1 "a" (HVal.num 2) "x" 3 (by decide)⟩


/-- Deleting key `k` removes exactly that key from the mapping. -/
theorem aget_adel (a : Attrs) (k k2 : String) :
    aget (adel a k) k2 = if k2 = k then none else aget a k2 := by
  induction a with
  | nil =>
      simp [aget, adel]
  | cons p a ih =>
      by_cases hp : p.1 = k
      · have hb : (p.1 != k) = false := by simp [hp]
        simp only [adel, List.filter, hb] at ih ⊢
        rw [ih]
        by_cases h2 : k2 = k
        · simp [h2]
        · simp only [h2, if_false]
          have hb2 : (p.1 == k2) = false := by
            rw [hp]
            simp
            intro hcon
            exact h2 hcon.symm
          simp [aget, List.find?, hb2]
      · have hne : (p.1 != k) = true := by simp [hp]
        simp only [adel, List.filter, hne] at ih ⊢
        by_cases h3 : p.1 = k2
        · simp [aget, List.find?, h3]
          intro h4
          exact hp (h3.trans h4)
        · have hb3 : (p.1 == k2) = false := by simp [h3]
          simp only [aget, List.find?, hb3] at ih ⊢
          exact ih

/-! ## The claim theorems for the dispatch engine -/

/-- C1 counterexample: a handler registered for the dispatched intent that
returns the literal `false` and never invokes any completion channel leaves
the outer promise pending forever — it settles zero times, not exactly
once as the claim states. -/
theorem claim_C1_counterexample :
    settlesOf (Application.request
      { emptyCfg with intents := [("Foo", falseHB)] } (intentRJ "Foo")) = [] := by rfl

/-- C1 (amended): for every application configuration, request body and
handler behavior, the outer promise settles at most once (any completion
attempt after the first is a no-op with respect to the outer result); it
settles exactly once on every path on which no handler was invoked, and on
every path whose invoked handler fires at least one completion channel
(throwing, an attached promise settling, returning a non-`false`
non-promise value, or any call to done/send/fail). -/
theorem claim_C1_amended (cfg : AppCfg) (rj : RequestJson) :
    (settlesOf (Application.request cfg rj)).length ≤ 1 ∧
    (∀ st, Application.request cfg rj = .ran st none → st.settled.length = 1) ∧
    (∀ st hb att, Application.request cfg rj = .ran st (some (hb, att)) →
        triggersCompletion hb att = true → st.settled.length = 1) := by
  refine ⟨?_, ?_, ?_⟩
  · cases hr : Application.request cfg rj with
    | constructionError e => simp [settlesOf]
    | ran st inv =>
        have h1 := (request_inv hr).1.1
        simp only [settlesOf]
        rw [h1]
        split <;> simp
  · intro st h
    have h1 := (request_inv h).1.1
    rw [h1, request_none_resolves h]
    simp
  · intro st hb att h htr
    have h1 := (request_inv h).1.1
    rw [h1, request_trigger_resolves h htr]
    simp

/-- Witness for C1 (amended) at a dispatch with no registered handler. -/
theorem claim_C1_amended_witness :
    (settlesOf (Application.request emptyCfg (intentRJ "Foo"))).length ≤ 1 ∧
    (extractSt (Application.request emptyCfg (intentRJ "Foo"))).settled.length = 1 :=
  ⟨(claim_C1_amended emptyCfg (intentRJ "Foo")).1,
   (claim_C1_amended emptyCfg (intentRJ "Foo")).2.1 _ rfl⟩

/-- C2 is violated by the audio-player branch: a registered audio-player
handler returning a promise that later rejects is auto-completed
synchronously — the outer promise resolves successfully at invocation time
and the rejection never reaches `handleError` — because the branch probes
the registration record (`eventHandlerObject.then`) instead of the handler
result.  The same behavior on the intent branch is settlement-driven: the
rejection reaches the error path and the outer promise rejects. -/
theorem claim_C2_audio_promise_bug :
    settlesOf (Application.request
        { emptyCfg with audioPlayerEventHandlers := [("PlaybackFinished", promiseRejectHB)] }
        audioRJ) =
      [Settle.res { ResponseDoc.initial with sessionAttributes := some [] }] ∧
    caughtOf (Application.request
        { emptyCfg with audioPlayerEventHandlers := [("PlaybackFinished", promiseRejectHB)] }
        audioRJ) = [] ∧
    settlesOf (Application.request
        { emptyCfg with intents := [("Foo", promiseRejectHB)] } (intentRJ "Foo")) =
      [Settle.rejMsg "Unhandled exception: boom."] := by
  refine ⟨?_, ?_, ?_⟩ <;> rfl

/-- C3: dispatching an IntentRequest whose intent name has no registered
handler raises the kind `NO_INTENT_FOUND`; a LaunchRequest with no launch
handler raises `NO_LAUNCH_FUNCTION`; an unrecognized non-media type raises
`INVALID_REQUEST_TYPE`; in each case the engine synthesizes the spoken
message from the message table and resolves the turn successfully. -/
theorem claim_C3_missing_handlers (ints : List (String × HandlerBehavior)) (nm : String)
    (hint : lookupHB ints nm = none) :
    (caughtOf (Application.request { emptyCfg with intents := ints } (intentRJ nm)) =
        [JsErr.thrownStr "NO_INTENT_FOUND"] ∧
      resolvedDocOf (Application.request { emptyCfg with intents := ints } (intentRJ nm)) =
        some { ResponseDoc.initial with
                 outputSpeech := some (SSML.fromStr ((messages "NO_INTENT_FOUND").getD "") none),
                 sessionAttributes := some [] }) ∧
    (caughtOf (Application.request { emptyCfg with intents := ints } launchRJ) =
        [JsErr.thrownStr "NO_LAUNCH_FUNCTION"] ∧
      resolvedDocOf (Application.request { emptyCfg with intents := ints } launchRJ) =
        some { ResponseDoc.initial with
                 outputSpeech := some (SSML.fromStr ((messages "NO_LAUNCH_FUNCTION").getD "") none),
                 sessionAttributes := some [] }) ∧
    (caughtOf (Application.request { emptyCfg with intents := ints } bogusRJ) =
        [JsErr.thrownStr "INVALID_REQUEST_TYPE"] ∧
      resolvedDocOf (Application.request { emptyCfg with intents := ints } bogusRJ) =
        some { ResponseDoc.initial with
                 outputSpeech := some (SSML.fromStr ((messages "INVALID_REQUEST_TYPE").getD "") none),
                 sessionAttributes := some [] }) := by
  refine ⟨⟨?_, ?_⟩, ⟨?_, ?_⟩, ⟨?_, ?_⟩⟩ <;>
    simp only [Application.request, emptyCfg, intentRJ, launchRJ, bogusRJ, Request.build,
      Session.build, preDispatch, runEvs, List.foldl, initSt, dispatch, Request.type,
      Request.isAudioPlayer, caughtOf, resolvedDocOf] <;>
    first
      | (rw [hint]; rfl)
      | rfl

/-- Witness for C3 with an empty intent table and the spec's unregistered
intent name. -/
theorem claim_C3_witness :
    caughtOf (Application.request { emptyCfg with intents := [] } (intentRJ "Unregistered")) =
      [JsErr.thrownStr "NO_INTENT_FOUND"] :=
  ((claim_C3_missing_handlers [] "Unregistered" rfl).1).1

/-- C4: for every dispatch that reaches the engine and settles the outer
promise, the post hook runs exactly once, and it runs strictly before the
outer promise settles (on both the success and the failure path). -/
theorem claim_C4_post_once (cfg : AppCfg) (rj : RequestJson) (st : EngineSt)
    (inv : Option (HandlerBehavior × Bool))
    (h : Application.request cfg rj = .ran st inv) (hne : st.settled.length ≠ 0) :
    st.postCalls = 1 ∧
    (st.trace.takeWhile (fun t => t != TraceEv.settleEv)).contains TraceEv.postEv = true := by
  obtain ⟨⟨h1, h2, h3, h5⟩, _⟩ := request_inv h
  have hres : st.resolved = true := by
    cases hr : st.resolved
    · rw [hr] at h1
      simp at h1
      exact absurd (congrArg List.length h1) hne
    · rfl
  have hpost : st.postExecuted = true := h3 hres
  simp only [hres, hpost, if_true] at h2 h5
  refine ⟨h2, ?_⟩
  rw [h5]
  decide

/-- Witness for C4 at a handler that calls `response.send()` twice: the post
hook still fires exactly once and before the settlement. -/
theorem claim_C4_witness :
    (extractSt (Application.request { emptyCfg with intents := [("Foo", doubleSendHB)] }
        (intentRJ "Foo"))).postCalls = 1 ∧
    ((extractSt (Application.request { emptyCfg with intents := [("Foo", doubleSendHB)] }
        (intentRJ "Foo"))).trace.takeWhile (fun t => t != TraceEv.settleEv)).contains
        TraceEv.postEv = true := by
  refine claim_C4_post_once { emptyCfg with intents := [("Foo", doubleSendHB)] }
    (intentRJ "Foo") _ (some (doubleSendHB, false)) (by rfl) ?_
  decide

/-- C6: a Session constructed from an `undefined` source payload fails every
`get`/`set`/`clear`/`isNew` call with the `NO_SESSION` error kind
(`NoSessionAvailable`), while `getAttributes()` still succeeds and returns
the empty mapping. -/
theorem claim_C6_unavailable_session (k : String) (v : PJson) (key : Option PJson) :
    Session.build none = Except.ok unavailableSession ∧
    unavailableSession.get k = .error (.thrownStr "NO_SESSION") ∧
    unavailableSession.set k v = .error (.thrownStr "NO_SESSION") ∧
    unavailableSession.clear key = .error (.thrownStr "NO_SESSION") ∧
    unavailableSession.isNew = .error (.thrownStr "NO_SESSION") ∧
    unavailableSession.getAttributes = [] :=
  ⟨rfl, rfl, rfl, rfl, rfl, rfl⟩

/-- C7: `response.card` with a Standard descriptor whose image block has
neither size field, or with a descriptor missing its variant's required
field (content for Simple, text for Standard), logs an error and leaves the
response document unmodified with the card field unset; being a total
function of the model, it never throws. -/
theorem claim_C7_card_validation (d : ResponseDoc) (c : CardObj)
    (hbad : (c.cardType = some "Standard" ∧ ∃ im, c.image = some im ∧
               im.smallImageUrl = none ∧ im.largeImageUrl = none) ∨
            (c.cardType = some "Simple" ∧ c.content = none) ∨
            (c.cardType = some "Standard" ∧ c.text = none)) :
    (Response.card d c).1 = d ∧ (Response.card d c).2 ≠ [] := by
  obtain ⟨ct, ti, co, te, im⟩ := c
  rcases hbad with ⟨h1, im2, h2, h3, h4⟩ | ⟨h1, h2⟩ | ⟨h1, h2⟩
  · simp only at h1 h2 h3 h4
    subst h1
    subst h2
    obtain ⟨sm, lg⟩ := im2
    simp only at h3 h4
    subst h3
    subst h4
    simp [Response.card]
  · simp only at h1 h2
    subst h1
    subst h2
    simp [Response.card]
  · simp only at h1 h2
    subst h1
    subst h2
    cases im with
    | none => simp [Response.card]
    | some im2 =>
        obtain ⟨sm, lg⟩ := im2
        cases sm with
        | none =>
            cases lg with
            | none => simp [Response.card]
            | some u => simp [Response.card]
        | some u => simp [Response.card]

/-- Witness for C7 at the spec's input `card({type: "Standard", image: {}})`. -/
theorem claim_C7_witness :
    (Response.card ResponseDoc.initial
        { cardType := some "Standard", title := none, content := none, text := none,
          image := some { smallImageUrl := none, largeImageUrl := none } }).1 =
      ResponseDoc.initial ∧
    (Response.card ResponseDoc.initial
        { cardType := some "Standard", title := none, content := none, text := none,
          image := some { smallImageUrl := none, largeImageUrl := none } }).2 ≠ [] :=
  claim_C7_card_validation ResponseDoc.initial _ (Or.inl ⟨rfl, _, rfl, rfl, rfl⟩)

/-- C8: on an available session, `clear` with a string key that is present
removes exactly that key (reads of every other key are unchanged), and with
any other argument — no key, a non-string key, or an absent string key — it
resets the whole attribute mapping to empty. -/
theorem claim_C8_clear (s : Session) (hava : s.available = true) :
    (∀ k k2, (aget s.attributes k).isSome = true →
      (s.clear (some (.str k))).map (fun s2 => aget s2.attributes k2) =
        .ok (if k2 = k then none else aget s.attributes k2)) ∧
    (∀ key, (match key with
             | some (.str k) => (aget s.attributes k).isNone
             | _ => true) = true →
      (s.clear key).map Session.attributes = .ok []) := by
  constructor
  · intro k k2 hk
    simp only [Session.clear, hava, if_true, hk, Except.map]
    rw [aget_adel]
  · intro key hkey
    cases key with
    | none => simp [Session.clear, hava, Except.map]
    | some pj =>
        cases pj with
        | str k =>
            simp only at hkey
            simp [Session.clear, hava, Except.map, Option.isNone_iff_eq_none.mp hkey]
        | null => simp [Session.clear, hava, Except.map]
        | bool b => simp [Session.clear, hava, Except.map]
        | num n => simp [Session.clear, hava, Except.map]
        | obj fs => simp [Session.clear, hava, Except.map]

/-- Witness for C8 at a session with attributes `x` and `y`: clearing `"x"`
leaves `y` unchanged, and clearing with no key empties the mapping. -/
theorem claim_C8_witness :
    (Session.clear sampleSession (some (.str "x"))).map
        (fun s2 => aget s2.attributes "y") =
      .ok (if "y" = "x" then none else aget sampleSession.attributes "y") ∧
    (Session.clear sampleSession none).map Session.attributes = .ok [] :=
  ⟨(claim_C8_clear sampleSession rfl).1 "x" "y" (by rfl),
   (claim_C8_clear sampleSession rfl).2 none (by rfl)⟩

/-- C9: for any application configuration, a request body whose `session`
object lacks `user`, or whose `context` object lacks `System`, makes the
Session/Request constructor throw a raw `TypeError` inside the promise
executor: the outer promise rejects with that `TypeError` and neither the
pre hook, any handler, the error handler nor the post hook runs. -/
theorem claim_C9_construction_typeerror (cfg : AppCfg) :
    Application.request cfg badSessionRJ =
      .constructionError (.typeError "Cannot read property 'accessToken' of undefined") ∧
    Application.request cfg badContextRJ =
      .constructionError (.typeError "Cannot read property 'user' of undefined") ∧
    settlesOf (Application.request cfg badSessionRJ) =
      [Settle.rejErr (.typeError "Cannot read property 'accessToken' of undefined")] ∧
    postCallsOf (Application.request cfg badSessionRJ) = 0 ∧
    postCallsOf (Application.request cfg badContextRJ) = 0 := by
  refine ⟨?_, ?_, ?_, ?_, ?_⟩ <;> rfl

/-- C10: an IntentRequest body lacking `request.intent` produces none of the
known error kinds: the `TypeError` from the raw-body read is caught
centrally, the outer promise rejects with the generic "Unhandled exception"
message, and the post hook still fires exactly once. -/
theorem claim_C10_missing_intent_object (cfg : AppCfg)
    (hpre : cfg.pre = { events := [], thrown := none })
    (herr : cfg.errorHandler = none) :
    settlesOf (Application.request cfg noIntentRJ) =
      [Settle.rejMsg "Unhandled exception: Cannot read property 'name' of undefined."] ∧
    caughtOf (Application.request cfg noIntentRJ) =
      [JsErr.typeError "Cannot read property 'name' of undefined"] ∧
    postCallsOf (Application.request cfg noIntentRJ) = 1 := by
  refine ⟨?_, ?_, ?_⟩ <;>
    simp only [Application.request, noIntentRJ, Request.build, Session.build,
      preDispatch, runEvs, List.foldl, initSt, dispatch, Request.type, Request.isAudioPlayer,
      settlesOf, caughtOf, postCallsOf, hpre, herr, asyncPhase, afterTry, handleError,
      handleErrorCore, JsErr.message, failOp, sendOp, sayOp] <;>
    rfl

/-- Witness for C10 at the default (no hooks) configuration. -/
theorem claim_C10_witness :
    settlesOf (Application.request emptyCfg noIntentRJ) =
      [Settle.rejMsg "Unhandled exception: Cannot read property 'name' of undefined."] ∧
    caughtOf (Application.request emptyCfg noIntentRJ) =
      [JsErr.typeError "Cannot read property 'name' of undefined"] ∧
    postCallsOf (Application.request emptyCfg noIntentRJ) = 1 :=
  claim_C10_missing_intent_object emptyCfg rfl rfl

end AlexaApp
